import Mathlib

/-!
# Verification of the querydsl hybrid query engine

Shallow embedding of the querydsl Go library (pkg/core types, the SQLite
SQL generator, and the SqliteExecutor orchestration), together with proofs
about the claims of the specification.

Conventions of the embedding:
* Go `error` returns become `Except String`.
* Go `map[string]any` rows become association lists with map semantics
  (`Row.find` looks up the first entry with a key; `Row.insert` replaces
  in place or appends).
* Go `any` filter values become the inductive `Value` (string, int64,
  bool, nil, `[]any`); float values are not needed by any claim.
-/

namespace Querydsl

/-- The canonical value representation: models the subset of Go `any`
values (`FilterValue`) that flow through the engine: strings, 64-bit
integers, booleans, nil, and `[]any` lists. -/
inductive Value : Type where
  | str (s : String)
  | int (n : Int)
  | bool (b : Bool)
  | null
  | list (vs : List Value)
deriving Repr

/-- Equality test on values, modelling Go `==` / `reflect.DeepEqual` on
the embedded value universe. -/
def Value.beq : Value → Value → Bool
  | .str a, .str b => a == b
  | .int a, .int b => a == b
  | .bool a, .bool b => a == b
  | .null, .null => true
  | .list a, .list b => listBeq a b
  | _, _ => false
where
  /-- Pointwise list equality. -/
  listBeq : List Value → List Value → Bool
  | [], [] => true
  | a :: as, b :: bs => Value.beq a b && listBeq as bs
  | _, _ => false

instance : BEq Value := ⟨Value.beq⟩

/-- Models Go `fmt.Sprintf("%v", v)` on the embedded value universe
(used by the executor to turn a `FunctionCall.Function` into a registry
key / default alias, and by the generator for LIKE parameter text). -/
def formatValue : Value → String
  | .str s => s
  | .int n => toString n
  | .bool true => "true"
  | .bool false => "false"
  | .null => "<nil>"
  | .list vs => "[" ++ String.intercalate " " (formatValueList vs) ++ "]"
where
  /-- Formats each element of a `[]any`. -/
  formatValueList : List Value → List String
  | [] => []
  | v :: vs => formatValue v :: formatValueList vs

/-- pkg/core: the fixed set of standard (database-native) comparison
operators, from `standardComparisonOperators`. -/
def standardComparisonOperators : List String :=
  ["eq", "neq", "lt", "lte", "gt", "gte", "in", "nin", "contains",
   "ncontains", "startswith", "endswith", "exists", "nexists"]

/-- pkg/core: `ComparisonOperator.IsStandard`. -/
def IsStandard (c : String) : Bool :=
  standardComparisonOperators.contains c

/-- pkg/core: `FilterCondition` (field, operator, value). Operators are
plain strings as in Go (`ComparisonOperator string`). -/
structure FilterCondition : Type where
  Field : String
  Operator : String
  Value : Value

mutual
/-- pkg/core: `QueryFilter` — a node holding an optional `Condition`
and an optional `Group`, exactly as the Go struct with its two
optional pointer members. -/
inductive QueryFilter : Type where
  | mk (Condition : Option FilterCondition) (Group : Option FilterGroup)

/-- pkg/core: `FilterGroup` — a logical operator (a plain string such
as "and"/"or"/"not"/"nor"/"xor") and child filters. -/
inductive FilterGroup : Type where
  | mk (Operator : String) (Conditions : List QueryFilter)
end

/-- Accessor for the `Condition` member. -/
def QueryFilter.Condition : QueryFilter → Option FilterCondition
  | .mk c _ => c

/-- Accessor for the `Group` member. -/
def QueryFilter.Group : QueryFilter → Option FilterGroup
  | .mk _ g => g

/-- Accessor for the group operator. -/
def FilterGroup.Operator : FilterGroup → String
  | .mk op _ => op

/-- Accessor for the group children. -/
def FilterGroup.Conditions : FilterGroup → List QueryFilter
  | .mk _ cs => cs

/-- pkg/core: `SortConfiguration`. Directions are the strings
"asc" / "desc". -/
structure SortConfiguration : Type where
  Field : String
  Direction : String

/-- pkg/core: `PaginationOptions`. `Limit` is a Go `int`, so it is
modelled as `Int` (it may be negative). -/
structure PaginationOptions : Type where
  «Type» : String
  Limit : Int
  Offset : Option Int
  Cursor : Option String

/-- pkg/core: `FunctionCall` (function name/identifier plus arguments;
the name is a `FilterValue`, i.e. an arbitrary value). -/
structure FunctionCall : Type where
  Function : Value
  Arguments : List Value

/-- pkg/core: `ComputedFieldExpression`. The Go field `Expression` is a
pointer that the executor dereferences unconditionally; the model keeps
it non-optional (a nil pointer would be a Go panic, outside the model). -/
structure ComputedFieldExpression : Type where
  «Type» : String
  Expression : FunctionCall
  Alias : String

/-- pkg/core: `CaseCondition` (when/then pair of a case expression). -/
structure CaseCondition : Type where
  When : QueryFilter
  Then : Value

/-- pkg/core: `CaseExpression` (declared in the schema; execution
support is a documented gap, so no function below consumes it). -/
structure CaseExpression : Type where
  «Type» : String
  Cases : List CaseCondition
  Else : Value
  Alias : String

mutual
/-- pkg/core: `ProjectionField` — a field name plus an optional nested
projection. -/
inductive ProjectionField : Type where
  | mk (Name : String) (Nested : Option ProjectionConfiguration)

/-- pkg/core: `ProjectionComputedItem` — either a computed-field
expression or a case expression. -/
inductive ProjectionComputedItem : Type where
  | mk (ComputedFieldExpression : Option ComputedFieldExpression)
       (CaseExpression : Option CaseExpression)

/-- pkg/core: `ProjectionConfiguration` (include / exclude / computed). -/
inductive ProjectionConfiguration : Type where
  | mk (Include : List ProjectionField) (Exclude : List ProjectionField)
       (Computed : List ProjectionComputedItem)
end

/-- Accessor for a projection field's name. -/
def ProjectionField.Name : ProjectionField → String
  | .mk n _ => n

/-- Accessor for a projection field's nested projection. -/
def ProjectionField.Nested : ProjectionField → Option ProjectionConfiguration
  | .mk _ n => n

/-- Accessor for a computed item's function-expression member. -/
def ProjectionComputedItem.ComputedFieldExpression :
    ProjectionComputedItem → Option ComputedFieldExpression
  | .mk c _ => c

/-- Accessor for a projection's include list. -/
def ProjectionConfiguration.Include : ProjectionConfiguration → List ProjectionField
  | .mk i _ _ => i

/-- Accessor for a projection's exclude list. -/
def ProjectionConfiguration.Exclude : ProjectionConfiguration → List ProjectionField
  | .mk _ e _ => e

/-- Accessor for a projection's computed list. -/
def ProjectionConfiguration.Computed : ProjectionConfiguration → List ProjectionComputedItem
  | .mk _ _ c => c

/-- pkg/core: `JoinConfiguration` (declared for forward compatibility;
execution ignores joins). -/
structure JoinConfiguration : Type where
  «Type» : String
  TargetTable : String
  On : QueryFilter
  Alias : String
  Projection : Option ProjectionConfiguration

/-- pkg/core: `AggregationConfiguration` (declared, not executed). -/
structure AggregationConfiguration : Type where
  «Type» : String
  Field : String
  Alias : String

/-- pkg/core: `WindowFunction` (declared, not executed). -/
structure WindowFunction : Type where
  Function : Value
  Arguments : List Value
  PartitionBy : List String
  OrderBy : List SortConfiguration
  Alias : String

/-- pkg/core: `QueryHint` (declared, not executed). -/
structure QueryHint : Type where
  «Type» : String
  Index : String
  Seconds : Int

/-- pkg/core: `QueryDSL`, the top-level request. -/
structure QueryDSL : Type where
  Filters : Option QueryFilter := none
  «Sort» : List SortConfiguration := []
  Pagination : Option PaginationOptions := none
  Projection : Option ProjectionConfiguration := none
  Joins : List JoinConfiguration := []
  Aggregations : List AggregationConfiguration := []
  Window : List WindowFunction := []
  Hints : List QueryHint := []

/-! ## The SQLite SQL generator (pkg/sqlite, SqliteQuery) -/

/-- pkg/sqlite: models `strings.ReplaceAll(s, quote, quotequote)` for the
one-character pattern used by `quoteIdentifier`: every double-quote
character in the identifier is doubled. -/
def escapeQuotes (s : String) : String :=
  String.mk (escapeChars s.data)
where
  /-- Doubles every double-quote character of the character list. -/
  escapeChars : List Char → List Char
  | [] => []
  | c :: cs => if c = '"' then '"' :: '"' :: escapeChars cs
               else c :: escapeChars cs

/-- pkg/sqlite: `quoteIdentifier` — wrap the identifier in double quotes
after doubling any embedded double quotes. -/
def quoteIdentifier (s : String) : String :=
  "\"" ++ escapeQuotes s ++ "\""

/-- Models Go `strings.ToUpper` on the operator and direction strings
(character-wise ASCII upper-casing, kept kernel-reducible). -/
def stringToUpper (s : String) : String :=
  String.mk (s.data.map Char.toUpper)

/-- pkg/sqlite: `buildCondition` — translate a single `FilterCondition`
with a standard operator into a SQL fragment, appending its values to the
positional parameter list (returned here instead of mutated through a
pointer). -/
def buildCondition (cond : FilterCondition) : Except String (String × List Value) :=
  let quotedField := quoteIdentifier cond.Field
  match cond.Operator with
  | "eq" => .ok (quotedField ++ " = ?", [cond.Value])
  | "neq" => .ok (quotedField ++ " != ?", [cond.Value])
  | "lt" => .ok (quotedField ++ " < ?", [cond.Value])
  | "lte" => .ok (quotedField ++ " <= ?", [cond.Value])
  | "gt" => .ok (quotedField ++ " > ?", [cond.Value])
  | "gte" => .ok (quotedField ++ " >= ?", [cond.Value])
  | "in" =>
    match cond.Value with
    | .list vs =>
      if vs.length > 0 then
        .ok (quotedField ++ " IN (" ++
              String.intercalate "," (vs.map (fun _ => "?")) ++ ")", vs)
      else .error "IN operator requires a non-empty array value"
    | _ => .error "IN operator requires a non-empty array value"
  | "nin" =>
    match cond.Value with
    | .list vs =>
      if vs.length > 0 then
        .ok (quotedField ++ " NOT IN (" ++
              String.intercalate "," (vs.map (fun _ => "?")) ++ ")", vs)
      else .error "NIN operator requires a non-empty array value"
    | _ => .error "NIN operator requires a non-empty array value"
  | "contains" =>
    .ok (quotedField ++ " LIKE ?", [.str ("%" ++ formatValue cond.Value ++ "%")])
  | "ncontains" =>
    .ok (quotedField ++ " NOT LIKE ?", [.str ("%" ++ formatValue cond.Value ++ "%")])
  | "startswith" =>
    .ok (quotedField ++ " LIKE ?", [.str (formatValue cond.Value ++ "%")])
  | "endswith" =>
    .ok (quotedField ++ " LIKE ?", [.str ("%" ++ formatValue cond.Value)])
  | "exists" => .ok (quotedField ++ " IS NOT NULL", [])
  | "nexists" => .ok (quotedField ++ " IS NULL", [])
  | op => .error ("unsupported comparison operator for direct SQL: " ++ op)

mutual
/-- pkg/sqlite: `buildWhereClause` — recursively build the WHERE clause
from a `QueryFilter`. A custom-operator condition is skipped (empty
fragment, no parameters); a group collects its children's fragments,
drops the empty ones, and combines the rest. The parameter list is the
concatenation, in traversal order, of what Go appends to the shared
`queryParams` slice. -/
def buildWhereClause : QueryFilter → Except String (String × List Value)
  | .mk (some cond) _ =>
    if IsStandard cond.Operator then buildCondition cond
    else .ok ("", [])
  | .mk none (some g) => buildGroupClause g
  | .mk none none => .error "empty or invalid filter structure"

/-- The `filter.Group != nil` branch of `buildWhereClause`. -/
def buildGroupClause : FilterGroup → Except String (String × List Value)
  | .mk oper cs => do
    let results ← buildClauseList cs
    let groupClauses := (results.map Prod.fst).filter (fun c => !(c == ""))
    let params := (results.map Prod.snd).flatten
    if groupClauses.length = 0 then
      .ok ("", params)
    else
      let op := stringToUpper oper
      if op = "NOT" then
        if groupClauses.length ≠ 1 then
          .error "NOT operator requires exactly one condition/group for SQL translation"
        else
          .ok ("NOT (" ++ groupClauses.headI ++ ")", params)
      else if op = "AND" ∨ op = "OR" then
        .ok ("(" ++ String.intercalate (" " ++ op ++ " ") groupClauses ++ ")", params)
      else
        .error ("unsupported logical operator for direct SQL translation: " ++ oper)

/-- The loop over a group's children inside `buildWhereClause`: each
child is translated in order and the first error aborts. -/
def buildClauseList : List QueryFilter → Except String (List (String × List Value))
  | [] => .ok []
  | f :: fs => do
    let r ← buildWhereClause f
    let rs ← buildClauseList fs
    .ok (r :: rs)
end

/-- pkg/sqlite: `Generate` (a.k.a. `GenerateSelectSQL`) — produce the
parameterized SELECT statement and its positional parameter list.
The Go receiver takes a possibly-nil `*QueryDSL`, modelled by `Option`. -/
def Generate (tableName : String) (dsl : Option QueryDSL) :
    Except String (String × List Value) := do
  match dsl with
  | none => .error "QueryDSL cannot be nil"
  | some dsl =>
    if tableName = "" then .error "table name cannot be empty" else
    let quotedTableName := quoteIdentifier tableName
    let selectFields : List String :=
      match dsl.Projection with
      | some proj =>
        if proj.Include.length > 0 then
          (proj.Include.filter
            (fun f => f.Name ≠ "" && f.Nested.isNone)).map
            (fun f => quoteIdentifier f.Name)
        else []
      | none => []
    let selectFields := if selectFields.length = 0 then ["*"] else selectFields
    let (whereClauses, queryParams) ←
      match dsl.Filters with
      | some f => do
        let (whereSql, ps) ← (buildWhereClause f).mapError
          (fun e => "error building WHERE clause: " ++ e)
        pure (if whereSql ≠ "" then [whereSql] else [], ps)
      | none => pure ([], [])
    let orderByClauses : List String :=
      dsl.«Sort».map (fun sc => quoteIdentifier sc.Field ++ " " ++ stringToUpper sc.Direction)
    let (limit, offset) : Int × Int :=
      match dsl.Pagination with
      | some pg =>
        if pg.«Type» = "offset" then (pg.Limit, pg.Offset.getD 0) else (-1, 0)
      | none => (-1, 0)
    let stmt :=
      "SELECT " ++ String.intercalate ", " selectFields ++ " FROM " ++ quotedTableName
      ++ (if whereClauses.length > 0 then
            " WHERE " ++ String.intercalate " AND " whereClauses else "")
      ++ (if orderByClauses.length > 0 then
            " ORDER BY " ++ String.intercalate ", " orderByClauses else "")
      ++ (if limit ≠ -1 then " LIMIT " ++ toString limit else "")
      ++ (if offset > 0 then " OFFSET " ++ toString offset else "")
    .ok (stmt, queryParams)

/-! ## Rows (pkg/core `Row`, a Go `map[string]any`) -/

/-- pkg/core: `Row` — one fetched record, a field-name-to-value mapping.
Modelled as an association list with map semantics (Go maps cannot hold
duplicate keys; `Row.wf` states that invariant). -/
abbrev Row : Type := List (String × Value)

/-- Map lookup, modelling `row[k]` with its ok-flag. -/
def Row.find (r : Row) (k : String) : Option Value :=
  match List.find? (fun p => p.1 = k) r with
  | some p => some p.2
  | none => none

/-- Map update, modelling `row[k] = v`: replace the entry in place when
the key is present, append otherwise. -/
def Row.insert (r : Row) (k : String) (v : Value) : Row :=
  if (List.any r (fun p => p.1 = k)) then
    List.map (fun p => if p.1 = k then (p.1, v) else p) r
  else
    r ++ [(k, v)]

/-- The Go-map invariant: one entry per key. -/
def Row.wf (r : Row) : Prop :=
  (List.map Prod.fst r).Nodup

/-- Two rows carry the same map: Go maps compare extensionally (key set
and values), independent of any entry order, so map equality is
lookup equality at every key. -/
def Row.equivMap (r s : Row) : Prop :=
  ∀ k, Row.find r k = Row.find s k

/-! ## The execution orchestrator (pkg/sqlite, SqliteExecutor) -/

/-- pkg/core: `GoFilterFunction` — a registered in-process predicate. -/
def GoFilterFunction : Type := Row → Except String Bool

/-- pkg/core: `GoComputeFunction` — a registered in-process derivation. -/
def GoComputeFunction : Type := Row → Except String Value

/-- The executor's `goFilterFunctions` map (operator name to function). -/
def FilterRegistry : Type := String → Option GoFilterFunction

/-- The executor's `goComputeFunctions` map (function name to function). -/
def ComputeRegistry : Type := String → Option GoComputeFunction

mutual
/-- pkg/sqlite: `evaluateGoFilter` — recursively evaluate a `QueryFilter`
on a row. A standard-operator condition is treated as already satisfied
by the pushed-down SQL; a custom condition invokes the registered filter
function (error when unregistered); groups evaluate with short-circuit
logic. -/
def evaluateGoFilter (freg : FilterRegistry) (row : Row) :
    QueryFilter → Except String Bool
  | .mk (some cond) _ =>
    if ¬ IsStandard cond.Operator then
      match freg cond.Operator with
      | some fn => fn row
      | none => .error ("unregistered Go filter function for operator: " ++ cond.Operator)
    else
      .ok true
  | .mk none (some g) =>
    match g with
    | .mk oper cs =>
      match oper with
      | "and" => evalAndList freg row cs
      | "or" => evalOrList freg row cs
      | "not" =>
        match cs with
        | [c] => do
          let passes ← evaluateGoFilter freg row c
          .ok (!passes)
        | _ => .error "NOT operator requires exactly one condition/group for Go evaluation"
      | "nor" => evalNorList freg row cs
      | "xor" =>
        match cs with
        | [a, b] => do
          let passesA ← evaluateGoFilter freg row a
          let passesB ← evaluateGoFilter freg row b
          .ok ((passesA && !passesB) || (!passesA && passesB))
        | _ => .error "XOR operator requires exactly two conditions/groups for Go evaluation"
      | op => .error ("unsupported logical operator for Go evaluation: " ++ op)
  | .mk none none => .error "empty or invalid filter structure for Go evaluation"

/-- The AND loop of `evaluateGoFilter`: stop at the first child that
fails (or errors). -/
def evalAndList (freg : FilterRegistry) (row : Row) :
    List QueryFilter → Except String Bool
  | [] => .ok true
  | c :: cs => do
    let passes ← evaluateGoFilter freg row c
    if passes then evalAndList freg row cs else .ok false

/-- The OR loop of `evaluateGoFilter`: stop at the first child that
passes (or errors). -/
def evalOrList (freg : FilterRegistry) (row : Row) :
    List QueryFilter → Except String Bool
  | [] => .ok false
  | c :: cs => do
    let passes ← evaluateGoFilter freg row c
    if passes then .ok true else evalOrList freg row cs

/-- The NOR loop of `evaluateGoFilter`: false as soon as a child passes,
true when none does. -/
def evalNorList (freg : FilterRegistry) (row : Row) :
    List QueryFilter → Except String Bool
  | [] => .ok true
  | c :: cs => do
    let passes ← evaluateGoFilter freg row c
    if passes then .ok false else evalNorList freg row cs
end

/-- pkg/sqlite: `applyGoFilters` — keep the rows whose in-process
evaluation passes; the first evaluation error aborts. -/
def applyGoFilters (freg : FilterRegistry) (rows : List Row)
    (filter : Option QueryFilter) : Except String (List Row) :=
  match filter with
  | none => .ok rows
  | some f => goRows f rows
where
  /-- The row loop. -/
  goRows (f : QueryFilter) : List Row → Except String (List Row)
  | [] => .ok []
  | row :: rest => do
    let passes ← (evaluateGoFilter freg row f).mapError
      (fun e => "error evaluating Go filter for row: " ++ e)
    let tail ← goRows f rest
    .ok (if passes then row :: tail else tail)

/-- The alias under which a computed item's value is attached:
the declared alias, or the function name rendered as text when the
alias is empty (both `applyGoComputeFunctions` and
`applyFinalProjection` compute it this way). -/
def computedAlias (cfe : ComputedFieldExpression) : String :=
  if cfe.Alias = "" then formatValue cfe.Expression.Function else cfe.Alias

/-- The inner loop of `applyGoComputeFunctions` on one row: every
computed item's registered function is invoked and its value attached
under the item's alias; unregistered names and invocation failures
abort. -/
def computeRow (creg : ComputeRegistry) (items : List ProjectionComputedItem)
    (row : Row) : Except String Row :=
  match items with
  | [] => .ok row
  | item :: rest =>
    match item.ComputedFieldExpression with
    | some cfe => do
      let funcName := formatValue cfe.Expression.Function
      let aliasName := computedAlias cfe
      match creg funcName with
      | none => .error ("unregistered Go compute function: " ++ funcName)
      | some fn => do
        let computedValue ← (fn row).mapError
          (fun e => "error executing Go compute function: " ++ e)
        computeRow creg rest (row.insert aliasName computedValue)
    | none => computeRow creg rest row

/-- pkg/sqlite: `applyGoComputeFunctions` — apply every computed
projection item to every row (rows are mutated in place in Go; the model
threads the updated row). -/
def applyGoComputeFunctions (creg : ComputeRegistry) (rows : List Row)
    (projection : Option ProjectionConfiguration) : Except String (List Row) :=
  match projection with
  | none => .ok rows
  | some p =>
    if p.Computed.length = 0 then .ok rows
    else rows.mapM (computeRow creg p.Computed)

/-- The include branch of `applyFinalProjection` and, in the same shape,
the computed-alias step: copy from `src` into `acc` the listed keys that
`src` actually has. -/
def insertFrom (src : Row) (keys : List String) (acc : Row) : Row :=
  match keys with
  | [] => acc
  | k :: ks =>
    match src.find k with
    | some v => insertFrom src ks (acc.insert k v)
    | none => insertFrom src ks acc

/-- The exclude branch of `applyFinalProjection`: copy every entry of
`src` whose key is not excluded. -/
def copyExcept (excludedFields : List String) (src : Row) (acc : Row) : Row :=
  match src with
  | [] => acc
  | p :: rest =>
    if excludedFields.contains p.1 then copyExcept excludedFields rest acc
    else copyExcept excludedFields rest (acc.insert p.1 p.2)

/-- Models `maps.Copy(dst, src)`. -/
def Row.copy (dst src : Row) : Row :=
  match src with
  | [] => dst
  | p :: rest => Row.copy (dst.insert p.1 p.2) rest

/-- The aliases of the computed items that carry a function expression,
in item order. -/
def computedAliases (items : List ProjectionComputedItem) : List String :=
  items.filterMap (fun item =>
    (item.ComputedFieldExpression).map computedAlias)

/-- The per-row body of `applyFinalProjection`. -/
def projectRow (projection : ProjectionConfiguration) (originalRow : Row) : Row :=
  let newRow : Row := []
  let newRow :=
    if projection.Include.length > 0 then
      insertFrom originalRow (projection.Include.map ProjectionField.Name) newRow
    else if projection.Exclude.length > 0 then
      copyExcept (projection.Exclude.map ProjectionField.Name) originalRow newRow
    else
      Row.copy newRow originalRow
  if projection.Computed.length > 0 then
    insertFrom originalRow (computedAliases projection.Computed) newRow
  else
    newRow

/-- pkg/sqlite: `applyFinalProjection` — shape every row to the caller's
include/exclude projection, re-attaching computed aliases; with no
projection at all the rows pass through unchanged. -/
def applyFinalProjection (rows : List Row)
    (projection : Option ProjectionConfiguration) : List Row :=
  match projection with
  | none => rows
  | some p =>
    if p.Include.length = 0 && p.Exclude.length = 0 && p.Computed.length = 0 then
      rows
    else
      rows.map (projectRow p)

/-- Set-like accumulation for `determineFieldsToSelect`: the Go code
collects names in a `map[string]struct{}`; the model keeps first
insertion order. -/
def addField (acc : List String) (s : String) : List String :=
  if acc.contains s then acc else acc ++ [s]

mutual
/-- pkg/sqlite: `collectGoFilterRequiredFields` — walk the filter tree
and record the field of every custom (non-standard-operator) condition.
Note the Go code inspects both the `Condition` and the `Group` member
of a node (no else between the two checks), so all four shapes are
spelled out. -/
def collectGoFilterRequiredFields : QueryFilter → List String → List String
  | .mk (some cond) (some (.mk _ cs)), acc =>
    collectList cs
      (if ¬ IsStandard cond.Operator then addField acc cond.Field else acc)
  | .mk (some cond) none, acc =>
    if ¬ IsStandard cond.Operator then addField acc cond.Field else acc
  | .mk none (some (.mk _ cs)), acc => collectList cs acc
  | .mk none none, acc => acc

/-- The loop over a group's children in `collectGoFilterRequiredFields`. -/
def collectList : List QueryFilter → List String → List String
  | [], acc => acc
  | c :: rest, acc => collectList rest (collectGoFilterRequiredFields c acc)
end

/-- pkg/sqlite: `determineFieldsToSelect` — the set of field names the
executor fetches from the backend: the explicit include projection, the
fields of custom filter conditions, and the hard-coded dependencies of
the known compute function "full_name_calc". The Go code returns the
keys of a set; the model returns them in first-insertion order. -/
def determineFieldsToSelect (dsl : QueryDSL) : List String :=
  let requiredFields : List String :=
    match dsl.Projection with
    | some proj =>
      if proj.Include.length > 0 then
        proj.Include.foldl
          (fun acc f => if f.Name ≠ "" then addField acc f.Name else acc) []
      else []
    | none => []
  let requiredFields :=
    match dsl.Filters with
    | some f => collectGoFilterRequiredFields f requiredFields
    | none => requiredFields
  match dsl.Projection with
  | some proj =>
    if proj.Computed.length > 0 then
      proj.Computed.foldl
        (fun acc item =>
          match item.ComputedFieldExpression with
          | some cfe =>
            if cfe.Expression.Function.beq (.str "full_name_calc") then
              addField (addField acc "first_name") "last_name"
            else acc
          | none => acc)
        requiredFields
    else requiredFields
  | none => requiredFields

/-- pkg/sqlite `Query`: the shallow copy of the caller's DSL handed to
the generator, whose projection is replaced by the resolved fetch field
set (empty include list means: the generator defaults to `SELECT *`). -/
def executorSqlDsl (dsl : QueryDSL) : QueryDSL :=
  { dsl with Projection := some (.mk
      ((determineFieldsToSelect dsl).map (fun n => .mk n none)) [] []) }

/-- The in-process stages of pkg/sqlite `Query` after rows have been
fetched and normalized: Go filter pass, Go compute pass, final
projection. A query either returns a fully processed row list or an
error — there is no partial result by construction. -/
def runInProcessStages (freg : FilterRegistry) (creg : ComputeRegistry)
    (dbRows : List Row) (dsl : QueryDSL) : Except String (List Row) := do
  let processedRows ← (applyGoFilters freg dbRows dsl.Filters).mapError
    (fun e => "Go filter failed: " ++ e)
  let processedRows ← (applyGoComputeFunctions creg processedRows dsl.Projection).mapError
    (fun e => "Go computed field failed: " ++ e)
  .ok (applyFinalProjection processedRows dsl.Projection)


/-! ## Spec-modelled backend behavior

The concrete relational backend (SQLite plus its Go driver) is an
external collaborator (spec section 6): only its interface is part of
this repository. The definitions below model, from the spec's words,
what the backend does with the generated statement fragments. -/

/-- Ordering test used by the modelled native comparisons: integers and
strings compare within their own type, everything else is not ordered
(the comparison fragment then admits nothing, like SQL NULL). -/
def valueLt : Value → Value → Bool
  | .int a, .int b => decide (a < b)
  | .str a, .str b => decide (a < b)
  | _, _ => false

/-- Substring test on character lists (the LIKE "%v%" fragment). -/
def listIsInfix (needle hay : List Char) : Bool :=
  match hay with
  | [] => needle.isEmpty
  | _ :: rest => needle.isPrefixOf hay || listIsInfix needle rest

/-- Modelled from the spec (glossary "Native operator", section 4.2):
the backend evaluating one pushed-down native comparison fragment
(field op ?) on a row. An absent field behaves like SQL NULL: every
comparison is unsatisfied, `exists` is false and `nexists` is true. -/
def sqlCondHolds (cond : FilterCondition) (row : Row) : Bool :=
  match row.find cond.Field, cond.Operator with
  | some v, "eq" => v.beq cond.Value
  | some v, "neq" => !(v.beq cond.Value) && !(v.beq .null)
  | some v, "lt" => valueLt v cond.Value
  | some v, "lte" => valueLt v cond.Value || v.beq cond.Value
  | some v, "gt" => valueLt cond.Value v
  | some v, "gte" => valueLt cond.Value v || v.beq cond.Value
  | some v, "in" =>
    (match cond.Value with
     | .list ws => ws.any (fun w => v.beq w)
     | _ => false)
  | some v, "nin" =>
    (match cond.Value with
     | .list ws => !(ws.any (fun w => v.beq w))
     | _ => false)
  | some v, "contains" =>
    (match v with
     | .str s => listIsInfix (formatValue cond.Value).data s.data
     | _ => false)
  | some v, "ncontains" =>
    (match v with
     | .str s => !(listIsInfix (formatValue cond.Value).data s.data)
     | _ => false)
  | some v, "startswith" =>
    (match v with
     | .str s => (formatValue cond.Value).data.isPrefixOf s.data
     | _ => false)
  | some v, "endswith" =>
    (match v with
     | .str s => (formatValue cond.Value).data.isSuffixOf s.data
     | _ => false)
  | some v, "exists" => !(v.beq .null)
  | some v, "nexists" => v.beq .null
  | none, "nexists" => true
  | _, _ => false

mutual
/-- Modelled from the spec (section 4.2): which rows the WHERE clause
generated by `buildWhereClause` admits. The structure mirrors the
generated fragments: a native condition is its comparison, a custom
condition contributes no fragment (`none`), a group combines the
fragments its children produced and vanishes when there are none. -/
def sqlFragSem : QueryFilter → Row → Option Bool
  | .mk (some cond) _, row =>
    if IsStandard cond.Operator then some (sqlCondHolds cond row) else none
  | .mk none (some (.mk oper cs)), row =>
    let frags := sqlFragSemList cs row
    if frags.length = 0 then none
    else
      match stringToUpper oper with
      | "NOT" => if frags.length = 1 then some (!frags.headI) else none
      | "AND" => some (frags.all id)
      | "OR" => some (frags.any id)
      | _ => none
  | .mk none none, _ => none

/-- The fragments of a group's children that exist, in order. -/
def sqlFragSemList : List QueryFilter → Row → List Bool
  | [], _ => []
  | f :: fs, row =>
    match sqlFragSem f row with
    | some b => b :: sqlFragSemList fs row
    | none => sqlFragSemList fs row
end

/-- A request without a WHERE clause (no filter, or a filter whose
fragments all vanished) admits every row. -/
def sqlWhereAdmits (filters : Option QueryFilter) (row : Row) : Bool :=
  match filters with
  | none => true
  | some f => (sqlFragSem f row).getD true

/-- Modelled from the spec (section 8, boundary behavior): the backend
applying an offset-pagination LIMIT to the ordered result rows. SQLite
treats a negative limit as "no limit"; LIMIT 0 returns no rows. -/
def backendApplyLimit (limit : Int) (rows : List Row) : List Row :=
  if limit < 0 then rows else rows.take limit.toNat

mutual
/-- Modelled from the spec (section 4.5 step 4 together with Scenario D
and section 9): the intended end-to-end filter semantics that the
composed pipeline must realize — native conditions evaluated by their
comparison semantics, custom conditions by the registered function,
groups by standard boolean logic; in particular an OR group is the
union of its branches. -/
def specEvalFilter (freg : FilterRegistry) (row : Row) :
    QueryFilter → Except String Bool
  | .mk (some cond) _ =>
    if IsStandard cond.Operator then .ok (sqlCondHolds cond row)
    else
      match freg cond.Operator with
      | some fn => fn row
      | none => .error ("unregistered filter function for operator: " ++ cond.Operator)
  | .mk none (some (.mk oper cs)) =>
    match oper with
    | "and" => specAndList freg row cs
    | "or" => specOrList freg row cs
    | "not" =>
      match cs with
      | [c] => do
        let passes ← specEvalFilter freg row c
        .ok (!passes)
      | _ => .error "NOT requires exactly one child"
    | "nor" => do
      let passes ← specOrList freg row cs
      .ok (!passes)
    | "xor" =>
      match cs with
      | [a, b] => do
        let passesA ← specEvalFilter freg row a
        let passesB ← specEvalFilter freg row b
        .ok ((passesA && !passesB) || (!passesA && passesB))
      | _ => .error "XOR requires exactly two children"
    | op => .error ("unsupported logical operator: " ++ op)
  | .mk none none => .error "empty or invalid filter structure"

/-- Conjunction over children of the spec semantics. -/
def specAndList (freg : FilterRegistry) (row : Row) :
    List QueryFilter → Except String Bool
  | [] => .ok true
  | c :: cs => do
    let passes ← specEvalFilter freg row c
    if passes then specAndList freg row cs else .ok false

/-- Disjunction over children of the spec semantics. -/
def specOrList (freg : FilterRegistry) (row : Row) :
    List QueryFilter → Except String Bool
  | [] => .ok false
  | c :: cs => do
    let passes ← specEvalFilter freg row c
    if passes then .ok true else specOrList freg row cs
end

/-- The composed pipeline of pkg/sqlite `Query` for a table whose full
contents are `tableRows`: generate the SELECT for the widened
projection, let the (spec-modelled) backend admit the rows that satisfy
the generated WHERE clause, then run the in-process stages on what came
back. Sorting changes only order and is omitted; pagination is not used
by the claims that consume this definition. -/
def hybridQuery (freg : FilterRegistry) (creg : ComputeRegistry)
    (tableName : String) (tableRows : List Row) (dsl : QueryDSL) :
    Except String (List Row) := do
  let _ ← (Generate tableName (some (executorSqlDsl dsl))).mapError
    (fun e => "failed to generate SQL query: " ++ e)
  let dbRows := tableRows.filter (fun r => sqlWhereAdmits dsl.Filters r)
  runInProcessStages freg creg dbRows dsl

/-! ## Basic lemmas -/

theorem exceptBind_ok {α β ε : Type} (a : α) (f : α → Except ε β) :
    (Except.ok a >>= f) = f a := rfl

theorem exceptBind_err {α β ε : Type} (e : ε) (f : α → Except ε β) :
    ((Except.error e : Except ε α) >>= f) = Except.error e := rfl

theorem exceptBind_pure {α β ε : Type} (a : α) (f : α → Except ε β) :
    ((pure a : Except ε α) >>= f) = f a := rfl

/-- The children list of an optional group (empty when there is none). -/
def groupChildren : Option FilterGroup → List QueryFilter
  | some (.mk _ cs) => cs
  | none => []

/-- Structural strong induction for `QueryFilter`: to prove a property
of every node it is enough to prove it of a node assuming it for all
children of its group member. -/
theorem QueryFilter.strongInduction (P : QueryFilter → Prop)
    (h : ∀ c g, (∀ f, f ∈ groupChildren g → P f) → P (.mk c g)) :
    ∀ f, P f := by
  have key : ∀ n f, sizeOf f < n → P f := by
    intro n
    induction n with
    | zero => intro f hf; omega
    | succ n ih =>
      intro f hf
      match f with
      | .mk c g =>
        apply h
        intro f' hf'
        apply ih
        have hlt : sizeOf f' < sizeOf (QueryFilter.mk c g) := by
          match g, hf' with
          | some (.mk oper cs), hf' =>
            have h1 : sizeOf f' < sizeOf cs := List.sizeOf_lt_of_mem hf'
            simp only [QueryFilter.mk.sizeOf_spec, Option.some.sizeOf_spec,
              FilterGroup.mk.sizeOf_spec]
            omega
        have hsz : sizeOf (QueryFilter.mk c g) < n + 1 := hf
        omega
  intro f
  exact key (sizeOf f + 1) f (by omega)
/-! ## Claim C8: pass-through identity of the final projection -/

/-- C8: for every row list, applying the final projection with an empty
include list, an empty exclude list, and no computed fields returns the
row list unchanged (both for an absent projection and for an
all-empty projection configuration). -/
theorem c8_applyFinalProjection_passthrough (rows : List Row) :
    applyFinalProjection rows none = rows ∧
    applyFinalProjection rows (some (.mk [] [] [])) = rows :=
  ⟨rfl, rfl⟩

/-! ## Claim C10: empty groups -/

/-- C10: for every row and registry, in-process evaluation of a `Group`
with an empty child list returns true for AND and NOR groups and false
for an OR group, without error; and SQL generation of such a group
produces an empty WHERE fragment, so the generated statement is the
same as with no filter at all. -/
theorem c10_emptyGroup_semantics (freg : FilterRegistry) (row : Row)
    (oper : String) (tbl : String) (dsl : QueryDSL) :
    evaluateGoFilter freg row (.mk none (some (.mk "and" []))) = .ok true ∧
    evaluateGoFilter freg row (.mk none (some (.mk "nor" []))) = .ok true ∧
    evaluateGoFilter freg row (.mk none (some (.mk "or" []))) = .ok false ∧
    buildWhereClause (.mk none (some (.mk oper []))) = .ok ("", []) ∧
    Generate tbl (some { dsl with Filters := some (.mk none (some (.mk oper []))) }) =
      Generate tbl (some { dsl with Filters := none }) :=
  ⟨rfl, rfl, rfl, rfl, rfl⟩

/-! ## Claim C2: native-and-AND-only trees are accepted in-process -/

mutual
/-- A filter tree built only from native (standard-operator) conditions
combined with AND groups. -/
def nativeAndOnly : QueryFilter → Bool
  | .mk (some c) _ => IsStandard c.Operator
  | .mk none (some (.mk oper cs)) => oper == "and" && nativeAndOnlyList cs
  | .mk none none => false

/-- All children of an AND group are native-and-AND-only. -/
def nativeAndOnlyList : List QueryFilter → Bool
  | [] => true
  | c :: cs => nativeAndOnly c && nativeAndOnlyList cs
end

theorem nativeAndOnlyList_mem {cs : List QueryFilter}
    (h : nativeAndOnlyList cs = true) : ∀ c ∈ cs, nativeAndOnly c = true := by
  induction cs with
  | nil => intro c hc; cases hc
  | cons c cs ih =>
    rw [nativeAndOnlyList] at h
    simp only [Bool.and_eq_true] at h
    intro x hx
    rcases List.mem_cons.mp hx with h1 | h2
    · subst h1; exact h.1
    · exact ih h.2 x h2

theorem evalAndList_all_true (freg : FilterRegistry) (row : Row) :
    ∀ cs : List QueryFilter,
      (∀ c ∈ cs, evaluateGoFilter freg row c = .ok true) →
      evalAndList freg row cs = .ok true := by
  intro cs
  induction cs with
  | nil => intro _; rfl
  | cons c cs ih =>
    intro h
    rw [evalAndList]
    rw [h c (List.mem_cons_self c cs), exceptBind_ok]
    simpa using ih (fun x hx => h x (List.mem_cons_of_mem c hx))

/-- C2: for every filter tree built only from native conditions combined
with AND groups, and for every row and registry, the in-process filter
evaluation (`evaluateGoFilter`) returns true: native conditions are
trusted to have been enforced by the pushed-down SQL. -/
theorem c2_evaluateGoFilter_nativeAnd_accepts (freg : FilterRegistry) (row : Row) :
    ∀ f : QueryFilter, nativeAndOnly f = true →
      evaluateGoFilter freg row f = .ok true := by
  apply QueryFilter.strongInduction
    (P := fun f => nativeAndOnly f = true → evaluateGoFilter freg row f = .ok true)
  intro c g ih hna
  match c, g with
  | some cond, g =>
    rw [nativeAndOnly] at hna
    rw [evaluateGoFilter]
    simp [hna]
  | none, some (.mk oper cs) =>
    rw [nativeAndOnly] at hna
    simp only [Bool.and_eq_true, beq_iff_eq] at hna
    obtain ⟨h1, h2⟩ := hna
    subst h1
    rw [evaluateGoFilter]
    exact evalAndList_all_true freg row cs
      (fun x hx => ih x (by simpa [groupChildren] using hx) (nativeAndOnlyList_mem h2 x hx))
  | none, none =>
    rw [nativeAndOnly] at hna
    cases hna

/-- A concrete native-and-AND-only tree for the C2 witness. -/
def c2WitnessTree : QueryFilter :=
  .mk none (some (.mk "and"
    [.mk (some ⟨"age", "gt", .int 18⟩) none,
     .mk (some ⟨"is_active", "eq", .bool true⟩) none]))

/-- Witness for C2 at a concrete tree, row and registry. -/
theorem c2_witness :
    nativeAndOnly c2WitnessTree = true ∧
    evaluateGoFilter (fun _ => none) [("age", .int 25)] c2WitnessTree = .ok true :=
  ⟨rfl, c2_evaluateGoFilter_nativeAnd_accepts (fun _ => none) [("age", .int 25)]
    c2WitnessTree rfl⟩
/-! ## Claim C1: OR group mixing a native and a custom condition -/

/-- An OR group mixing one native condition (age > 18) and one custom
condition (the registered operator zero_balance_check). -/
def c1FilterOr : QueryFilter :=
  .mk none (some (.mk "or"
    [.mk (some ⟨"age", "gt", .int 18⟩) none,
     .mk (some ⟨"balance", "zero_balance_check", .null⟩) none]))

/-- The request of Scenario D. -/
def c1Dsl : QueryDSL := { Filters := some c1FilterOr }

/-- A registry holding the custom filter: the row passes when its
balance is zero. -/
def c1Registry : FilterRegistry := fun op =>
  if op = "zero_balance_check" then
    some (fun row =>
      match row.find "balance" with
      | some (.int n) => .ok (n == 0)
      | _ => .error "balance not found")
  else none

/-- A row satisfying only the custom branch: age 10 (fails age > 18)
and balance 0 (passes zero_balance_check). -/
def c1Row : Row := [("age", .int 10), ("balance", .int 0)]

/-- C1: the code violates the claim. The pushed-down WHERE clause of the
mixed OR group keeps only the native branch, so the row satisfying only
the custom branch never reaches the in-process stage: the composed
pipeline returns the empty list, although the specified union semantics
(Scenario D) accepts the row. The spec itself flags this outcome as a
defect, so the claim is right and the code is wrong. -/
theorem c1_or_mixed_union_code_bug :
    hybridQuery c1Registry (fun _ => none) "users" [c1Row] c1Dsl = .ok [] ∧
    specEvalFilter c1Registry c1Row c1FilterOr = .ok true ∧
    sqlWhereAdmits c1Dsl.Filters c1Row = false ∧
    buildWhereClause c1FilterOr = .ok ("(\"age\" > ?)", [.int 18]) :=
  ⟨rfl, rfl, rfl, rfl⟩

/-! ## Claim C6: unregistered functions and invocation failures -/

/-- A request whose filter names a custom operator that is registered
nowhere. -/
def c6Dsl : QueryDSL :=
  { Filters := some (.mk (some ⟨"name", "non_existent_filter", .null⟩) none) }

/-- Counterexample to C6 as stated: with an empty fetched row list the
in-process stages never look the operator up, so the query succeeds
(returns ok with the empty row list) although the filter tree contains a
custom condition with no registered filter function. -/
theorem c6_counterexample :
    runInProcessStages (fun _ => none) (fun _ => none) [] c6Dsl = .ok [] := rfl

theorem applyGoFilters_error_of_mem (freg : FilterRegistry)
    (f : QueryFilter) (rows : List Row)
    (h : ∃ r ∈ rows, ∃ e, evaluateGoFilter freg r f = .error e) :
    ∃ e, applyGoFilters freg rows (some f) = .error e := by
  induction rows with
  | nil => obtain ⟨r, hr, _⟩ := h; cases hr
  | cons r rest ih =>
    show ∃ e, applyGoFilters.goRows freg f (r :: rest) = .error e
    rw [applyGoFilters.goRows]
    cases hev : evaluateGoFilter freg r f with
    | error e =>
      exact ⟨"error evaluating Go filter for row: " ++ e, by
        simp [hev, Except.mapError, exceptBind_err]⟩
    | ok b =>
      obtain ⟨r', hr', e', he'⟩ := h
      rcases List.mem_cons.mp hr' with h1 | h2
      · subst h1; rw [hev] at he'; cases he'
      · obtain ⟨e2, he2⟩ := ih ⟨r', h2, e', he'⟩
        refine ⟨e2, ?_⟩
        have he2' : applyGoFilters.goRows freg f rest = .error e2 := he2
        simp only [hev, Except.mapError, exceptBind_ok, he2']
        rfl

theorem computeRow_error_of_unregistered (creg : ComputeRegistry)
    (items : List ProjectionComputedItem) (row : Row)
    (h : ∃ item ∈ items, ∃ cfe, item.ComputedFieldExpression = some cfe ∧
      creg (formatValue cfe.Expression.Function) = none) :
    ∃ e, computeRow creg items row = .error e := by
  induction items generalizing row with
  | nil => obtain ⟨item, hit, _⟩ := h; cases hit
  | cons item rest ih =>
    rw [computeRow]
    cases hcfe : item.ComputedFieldExpression with
    | none =>
      obtain ⟨item', hit', cfe', hcfe', hreg'⟩ := h
      rcases List.mem_cons.mp hit' with h1 | h2
      · subst h1; rw [hcfe] at hcfe'; cases hcfe'
      · exact ih row ⟨item', h2, cfe', hcfe', hreg'⟩
    | some cfe =>
      cases hreg : creg (formatValue cfe.Expression.Function) with
      | none =>
        exact ⟨"unregistered Go compute function: " ++ formatValue cfe.Expression.Function,
          by simp [hcfe, hreg]⟩
      | some fn =>
        cases hfn : fn row with
        | error e =>
          exact ⟨"error executing Go compute function: " ++ e,
            by simp [hcfe, hreg, hfn, Except.mapError, exceptBind_err, Except.bind]⟩
        | ok v =>
          have hmem : ∃ item ∈ rest, ∃ cfe, item.ComputedFieldExpression = some cfe ∧
              creg (formatValue cfe.Expression.Function) = none := by
            obtain ⟨item', hit', cfe', hcfe', hreg'⟩ := h
            rcases List.mem_cons.mp hit' with h1 | h2
            · subst h1
              rw [hcfe] at hcfe'
              cases hcfe'
              rw [hreg] at hreg'
              cases hreg'
            · exact ⟨item', h2, cfe', hcfe', hreg'⟩
          obtain ⟨e2, he2⟩ := ih (row.insert (computedAlias cfe) v) hmem
          exact ⟨e2, by simp [hcfe, hreg, hfn, Except.mapError, exceptBind_ok, he2, Except.bind]⟩

/-- C6 (amended): unregistered functions and invocation failures abort
the whole query exactly when the in-process stages actually reach them:
if the filter evaluation errors on some fetched row, or some surviving
row remains and a computed item names an unregistered compute function,
the query returns an error and no row list (the result type admits no
partial success). Lookups happen only at evaluation time, so an empty
fetched row set or a short-circuited branch can leave an unregistered
name undetected. -/
theorem c6_amended_inprocess_errors_abort (freg : FilterRegistry)
    (creg : ComputeRegistry) (rows : List Row) (dsl : QueryDSL) :
    (∀ f, dsl.Filters = some f →
      (∃ r ∈ rows, ∃ e, evaluateGoFilter freg r f = .error e) →
      ∃ e, runInProcessStages freg creg rows dsl = .error e) ∧
    (∀ p rows', dsl.Projection = some p →
      applyGoFilters freg rows dsl.Filters = .ok rows' →
      rows' ≠ [] →
      (∃ item ∈ p.Computed, ∃ cfe, item.ComputedFieldExpression = some cfe ∧
        creg (formatValue cfe.Expression.Function) = none) →
      ∃ e, runInProcessStages freg creg rows dsl = .error e) := by
  constructor
  · intro f hf herr
    obtain ⟨e, he⟩ := applyGoFilters_error_of_mem freg f rows (by exact herr)
    refine ⟨"Go filter failed: " ++ e, ?_⟩
    rw [runInProcessStages, hf, he]
    rfl
  · intro p rows' hp hflt hne hunreg
    match rows', hne with
    | r :: rest, _ =>
      obtain ⟨e, he⟩ := computeRow_error_of_unregistered creg p.Computed r hunreg
      have hlen : p.Computed.length ≠ 0 := by
        obtain ⟨item, hit, _⟩ := hunreg
        cases hc : p.Computed with
        | nil => rw [hc] at hit; cases hit
        | cons a l => simp [hc]
      have hcomp : ∃ e2, applyGoComputeFunctions creg (r :: rest) dsl.Projection
          = .error e2 := by
        rw [hp, applyGoComputeFunctions]
        simp only [hlen, if_false]
        refine ⟨e, ?_⟩
        rw [List.mapM_cons, he]
        rfl
      obtain ⟨e2, he2⟩ := hcomp
      refine ⟨"Go computed field failed: " ++ e2, ?_⟩
      rw [runInProcessStages, hflt]
      show (do
        let processedRows ← Except.mapError (fun e => "Go computed field failed: " ++ e)
          (applyGoComputeFunctions creg (r :: rest) dsl.Projection)
        Except.ok (applyFinalProjection processedRows dsl.Projection))
        = Except.error ("Go computed field failed: " ++ e2)
      rw [he2]
      rfl

/-- Witness for the amended C6: one row, an unregistered filter
operator in an AND group that the evaluation does reach, and the
resulting error. -/
theorem c6_amended_witness :
    (∃ e, runInProcessStages (fun _ => none) (fun _ => none)
      [[("age", .int 25)]] c6Dsl = .error e) :=
  (c6_amended_inprocess_errors_abort (fun _ => none) (fun _ => none)
    [[("age", .int 25)]] c6Dsl).1
    (.mk (some ⟨"name", "non_existent_filter", .null⟩) none) rfl
    ⟨[("age", .int 25)], List.mem_cons_self _ _,
     "unregistered Go filter function for operator: non_existent_filter", rfl⟩
/-! ## Claim C3: offset pagination boundaries -/

theorem strAppend_assoc (a b c : String) : (a ++ b) ++ c = a ++ (b ++ c) := by
  cases a with | mk da =>
  cases b with | mk db =>
  cases c with | mk dc =>
  show String.mk ((da ++ db) ++ dc) = String.mk (da ++ (db ++ dc))
  rw [List.append_assoc]

theorem strAppend_empty (a : String) : a ++ "" = a := by
  cases a with | mk da =>
  show String.mk (da ++ []) = String.mk da
  rw [List.append_nil]

/-- The LIMIT/OFFSET suffix that an offset-pagination configuration adds
to the generated statement (empty for cursor pagination, empty LIMIT
part for the initial limit value -1, empty OFFSET part for offsets
not above zero). -/
def pagSuffix (pg : PaginationOptions) : String :=
  let (limit, offset) : Int × Int :=
    if pg.«Type» = "offset" then (pg.Limit, pg.Offset.getD 0) else (-1, 0)
  (if limit ≠ -1 then " LIMIT " ++ toString limit else "")
  ++ (if offset > 0 then " OFFSET " ++ toString offset else "")

/-- Counterexample to C3 as stated: a request with offset pagination and
the negative limit -2 does not fail generation; the statement is
produced, with the negative limit emitted literally. -/
theorem c3_counterexample :
    Generate "users"
      (some { Pagination := some ⟨"offset", -2, none, none⟩ }) =
    .ok ("SELECT * FROM \"users\" LIMIT -2", []) := rfl

/-- C3 (amended): pagination only appends a LIMIT/OFFSET suffix to the
statement the same request generates without pagination — in particular
generation never fails because of the limit value, so a negative limit
is not a malformed-request error (limit -1 suppresses the LIMIT clause,
other negative limits are emitted literally and the backend treats them
as "no limit"); with limit 0 the suffix is " LIMIT 0" and the backend
then returns an empty row list without error. -/
theorem c3_amended_pagination_behavior (tbl : String) (dsl : QueryDSL)
    (pg : PaginationOptions) (rows : List Row) (cur : Option String) :
    Generate tbl (some { dsl with Pagination := some pg }) =
      (Generate tbl (some { dsl with Pagination := none })).map
        (fun r => (r.1 ++ pagSuffix pg, r.2)) ∧
    pagSuffix ⟨"offset", 0, none, cur⟩ = " LIMIT 0" ∧
    backendApplyLimit 0 rows = [] ∧
    pagSuffix ⟨"offset", -1, none, cur⟩ = "" ∧
    backendApplyLimit (-2) rows = rows := by
  refine ⟨?_, rfl, rfl, rfl, rfl⟩
  obtain ⟨fl, srt, pgn, prj, jn, ag, wd, hn⟩ := dsl
  rw [Generate, Generate]
  by_cases ht : tbl = ""
  · simp only [ht, if_true, reduceIte]
    rfl
  · simp only [ht, if_false, reduceIte]
    cases fl with
    | none =>
      by_cases hp : pg.«Type» = "offset" <;>
        simp [pagSuffix, hp, strAppend_assoc, strAppend_empty, exceptBind_ok,
          Except.map, Except.bind, Except.pure, pure]
    | some f =>
      cases hw : buildWhereClause f with
      | error e =>
        simp [hw, Except.mapError, Except.map, exceptBind_err, Except.bind]
      | ok r =>
        by_cases hp : pg.«Type» = "offset" <;>
          simp [hw, Except.mapError, exceptBind_ok, exceptBind_err, pagSuffix, hp,
            strAppend_assoc, strAppend_empty, Except.map, Except.bind, Except.pure, pure]
/-! ## Claim C5: malformed filter structures -/

theorem strAppend_ne_empty_left (a b : String) (h : a ≠ "") : a ++ b ≠ "" := by
  cases a with | mk da =>
  cases b with | mk db =>
  intro hc
  have hdata : da ++ db = [] := congrArg String.data hc
  have hda : da = [] := (List.append_eq_nil.mp hdata).1
  exact h (by rw [hda])

theorem quoteIdentifier_ne_empty (s : String) : quoteIdentifier s ≠ "" := by
  rw [quoteIdentifier]
  exact strAppend_ne_empty_left _ _ (strAppend_ne_empty_left _ _ (by decide))

/-- Is the value a non-empty list (what the IN / NOT-IN translation
requires)? -/
def isNonEmptyListValue : Value → Bool
  | .list vs => decide (0 < vs.length)
  | _ => false

mutual
/-- Does this node produce a non-empty SQL fragment, assuming
generation does not fail below it? A native condition does, a custom
condition does not, a group does iff some child does. -/
def hasFragment : QueryFilter → Bool
  | .mk (some c) _ => IsStandard c.Operator
  | .mk none (some (.mk _ cs)) => hasFragmentList cs
  | .mk none none => false

/-- Does some member produce a fragment? -/
def hasFragmentList : List QueryFilter → Bool
  | [] => false
  | c :: cs => hasFragment c || hasFragmentList cs
end

/-- How many children of a group produce a fragment. -/
def fragmentCount (cs : List QueryFilter) : Nat :=
  (cs.filter (fun c => hasFragment c)).length

mutual
/-- The filter structures on which `buildWhereClause` fails: a node with
neither member set; an IN / NOT-IN condition without a non-empty list
value; a group with a malformed child; a group whose operator is not
translatable as NOT/AND/OR (NOR, XOR, anything else) with at least one
fragment-producing child; a NOT group whose fragment-producing child
count is positive but not one. -/
def malformedSql : QueryFilter → Bool
  | .mk (some c) _ =>
    IsStandard c.Operator &&
      ((c.Operator == "in" || c.Operator == "nin") && !isNonEmptyListValue c.Value)
  | .mk none (some (.mk oper cs)) =>
    malformedSqlList cs ||
      (decide (0 < fragmentCount cs) &&
        (if stringToUpper oper = "NOT" then decide (fragmentCount cs ≠ 1)
         else if stringToUpper oper = "AND" ∨ stringToUpper oper = "OR" then false
         else true))
  | .mk none none => true

/-- Does some member make generation fail? -/
def malformedSqlList : List QueryFilter → Bool
  | [] => false
  | c :: cs => malformedSql c || malformedSqlList cs
end

theorem buildCondition_spec (c : FilterCondition)
    (hstd : IsStandard c.Operator = true) :
    (((c.Operator == "in" || c.Operator == "nin") && !isNonEmptyListValue c.Value) = true →
      ∃ e, buildCondition c = .error e) ∧
    (((c.Operator == "in" || c.Operator == "nin") && !isNonEmptyListValue c.Value) = false →
      ∃ s ps, buildCondition c = .ok (s, ps) ∧ s ≠ "") := by
  obtain ⟨fld, op, v⟩ := c
  have hq := quoteIdentifier_ne_empty fld
  have hmem : op ∈ standardComparisonOperators := by
    rw [IsStandard] at hstd
    exact List.mem_of_elem_eq_true hstd
  rw [standardComparisonOperators] at hmem
  have hin : ∀ vv : Value,
      ((true && !isNonEmptyListValue vv) = true → ∃ e, buildCondition ⟨fld, "in", vv⟩ = .error e) ∧
      ((true && !isNonEmptyListValue vv) = false →
        ∃ s ps, buildCondition ⟨fld, "in", vv⟩ = .ok (s, ps) ∧ s ≠ "") := by
    intro vv
    constructor
    · intro hmal
      have hval : isNonEmptyListValue vv = false := by simpa using hmal
      cases vv with
      | list vs =>
        have hlen : ¬ 0 < vs.length := by simpa [isNonEmptyListValue] using hval
        rw [buildCondition]
        simp only [hlen, reduceIte]
        exact ⟨_, rfl⟩
      | str s => exact ⟨_, rfl⟩
      | int n => exact ⟨_, rfl⟩
      | bool b => exact ⟨_, rfl⟩
      | null => exact ⟨_, rfl⟩
    · intro hok
      have hval : isNonEmptyListValue vv = true := by simpa using hok
      cases vv with
      | list vs =>
        have hlen : 0 < vs.length := by simpa [isNonEmptyListValue] using hval
        rw [buildCondition]
        simp only [hlen, reduceIte]
        exact ⟨_, _, rfl,
          strAppend_ne_empty_left _ _ (strAppend_ne_empty_left _ _ (strAppend_ne_empty_left _ _ hq))⟩
      | str s => simp [isNonEmptyListValue] at hval
      | int n => simp [isNonEmptyListValue] at hval
      | bool b => simp [isNonEmptyListValue] at hval
      | null => simp [isNonEmptyListValue] at hval
  have hnin : ∀ vv : Value,
      ((true && !isNonEmptyListValue vv) = true → ∃ e, buildCondition ⟨fld, "nin", vv⟩ = .error e) ∧
      ((true && !isNonEmptyListValue vv) = false →
        ∃ s ps, buildCondition ⟨fld, "nin", vv⟩ = .ok (s, ps) ∧ s ≠ "") := by
    intro vv
    constructor
    · intro hmal
      have hval : isNonEmptyListValue vv = false := by simpa using hmal
      cases vv with
      | list vs =>
        have hlen : ¬ 0 < vs.length := by simpa [isNonEmptyListValue] using hval
        rw [buildCondition]
        simp only [hlen, reduceIte]
        exact ⟨_, rfl⟩
      | str s => exact ⟨_, rfl⟩
      | int n => exact ⟨_, rfl⟩
      | bool b => exact ⟨_, rfl⟩
      | null => exact ⟨_, rfl⟩
    · intro hok
      have hval : isNonEmptyListValue vv = true := by simpa using hok
      cases vv with
      | list vs =>
        have hlen : 0 < vs.length := by simpa [isNonEmptyListValue] using hval
        rw [buildCondition]
        simp only [hlen, reduceIte]
        exact ⟨_, _, rfl,
          strAppend_ne_empty_left _ _ (strAppend_ne_empty_left _ _ (strAppend_ne_empty_left _ _ hq))⟩
      | str s => simp [isNonEmptyListValue] at hval
      | int n => simp [isNonEmptyListValue] at hval
      | bool b => simp [isNonEmptyListValue] at hval
      | null => simp [isNonEmptyListValue] at hval
  fin_cases hmem
  · exact ⟨fun hmal => by simp at hmal, fun _ => ⟨_, _, rfl, strAppend_ne_empty_left _ _ hq⟩⟩
  · exact ⟨fun hmal => by simp at hmal, fun _ => ⟨_, _, rfl, strAppend_ne_empty_left _ _ hq⟩⟩
  · exact ⟨fun hmal => by simp at hmal, fun _ => ⟨_, _, rfl, strAppend_ne_empty_left _ _ hq⟩⟩
  · exact ⟨fun hmal => by simp at hmal, fun _ => ⟨_, _, rfl, strAppend_ne_empty_left _ _ hq⟩⟩
  · exact ⟨fun hmal => by simp at hmal, fun _ => ⟨_, _, rfl, strAppend_ne_empty_left _ _ hq⟩⟩
  · exact ⟨fun hmal => by simp at hmal, fun _ => ⟨_, _, rfl, strAppend_ne_empty_left _ _ hq⟩⟩
  · simpa using hin v
  · simpa using hnin v
  · exact ⟨fun hmal => by simp at hmal, fun _ => ⟨_, _, rfl, strAppend_ne_empty_left _ _ hq⟩⟩
  · exact ⟨fun hmal => by simp at hmal, fun _ => ⟨_, _, rfl, strAppend_ne_empty_left _ _ hq⟩⟩
  · exact ⟨fun hmal => by simp at hmal, fun _ => ⟨_, _, rfl, strAppend_ne_empty_left _ _ hq⟩⟩
  · exact ⟨fun hmal => by simp at hmal, fun _ => ⟨_, _, rfl, strAppend_ne_empty_left _ _ hq⟩⟩
  · exact ⟨fun hmal => by simp at hmal, fun _ => ⟨_, _, rfl, strAppend_ne_empty_left _ _ hq⟩⟩
  · exact ⟨fun hmal => by simp at hmal, fun _ => ⟨_, _, rfl, strAppend_ne_empty_left _ _ hq⟩⟩

theorem fragmentCount_nil : fragmentCount [] = 0 := rfl

theorem fragmentCount_cons (c : QueryFilter) (cs : List QueryFilter) :
    fragmentCount (c :: cs) =
      (if hasFragment c then 1 else 0) + fragmentCount cs := by
  rw [fragmentCount, fragmentCount, List.filter_cons]
  by_cases h : hasFragment c <;> simp [h, Nat.add_comm]

theorem fragmentCount_zero_iff (cs : List QueryFilter) :
    fragmentCount cs = 0 ↔ hasFragmentList cs = false := by
  induction cs with
  | nil => simp [fragmentCount_nil, hasFragmentList]
  | cons c rest ih =>
    rw [fragmentCount_cons, hasFragmentList]
    by_cases h : hasFragment c <;> simp [h, ih]

/-- The property established for every node by `buildWhereClause_spec`. -/
def WhereSpec (f : QueryFilter) : Prop :=
  (malformedSql f = true → ∃ e, buildWhereClause f = .error e) ∧
  (malformedSql f = false → ∃ s ps, buildWhereClause f = .ok (s, ps) ∧
    (s ≠ "" ↔ hasFragment f = true))

theorem buildClauseList_spec (cs : List QueryFilter)
    (hch : ∀ c ∈ cs, WhereSpec c) :
    (malformedSqlList cs = true → ∃ e, buildClauseList cs = .error e) ∧
    (malformedSqlList cs = false → ∃ rs, buildClauseList cs = .ok rs ∧
      ((rs.map Prod.fst).filter (fun c => !(c == ""))).length = fragmentCount cs) := by
  induction cs with
  | nil =>
    refine ⟨fun h => by simp [malformedSqlList] at h,
            fun _ => ⟨[], ⟨rfl, by simp [fragmentCount_nil]⟩⟩⟩
  | cons c rest ih =>
    obtain ⟨hce, hco⟩ := hch c (List.mem_cons_self c rest)
    obtain ⟨hre, hro⟩ := ih (fun x hx => hch x (List.mem_cons_of_mem c hx))
    constructor
    · intro hmal
      rw [malformedSqlList] at hmal
      rcases Bool.or_eq_true_iff.mp hmal with h1 | h2
      · obtain ⟨e, he⟩ := hce h1
        exact ⟨e, by rw [buildClauseList, he]; rfl⟩
      · by_cases hc : malformedSql c = true
        · obtain ⟨e, he⟩ := hce hc
          exact ⟨e, by rw [buildClauseList, he]; rfl⟩
        · obtain ⟨s, ps, hok, _⟩ := hco (by simpa using hc)
          obtain ⟨e, he⟩ := hre h2
          refine ⟨e, ?_⟩
          rw [buildClauseList, hok, exceptBind_ok, he]
          rfl
    · intro hok
      rw [malformedSqlList] at hok
      have h1 : malformedSql c = false := by
        cases hb : malformedSql c
        · rfl
        · rw [hb] at hok; simp at hok
      have h2 : malformedSqlList rest = false := by
        cases hb : malformedSqlList rest
        · rfl
        · rw [hb] at hok; simp at hok
      obtain ⟨s, ps, hcok, hfr⟩ := hco h1
      obtain ⟨rs, hrok, hcnt⟩ := hro h2
      refine ⟨(s, ps) :: rs, ?_, ?_⟩
      · rw [buildClauseList, hcok, exceptBind_ok, hrok]
        rfl
      · rw [List.map_cons, List.filter_cons, fragmentCount_cons]
        by_cases hfrag : hasFragment c
        · have hs : (!(s == "")) = true := by
            simp [hfr.mpr hfrag]
          rw [hs, if_pos rfl, List.length_cons, hcnt, hfrag, if_pos rfl, Nat.add_comm]
        · have hfrag' : hasFragment c = false := by simpa using hfrag
          have hseq : s = "" := by
            by_contra hne
            have hcontra := hfr.mp hne
            rw [hfrag'] at hcontra
            cases hcontra
          rw [hseq]
          simp [hcnt, hfrag']

theorem buildWhereClause_spec : ∀ f : QueryFilter, WhereSpec f := by
  apply QueryFilter.strongInduction WhereSpec
  intro c g ih
  match c, g with
  | some cond, g =>
    by_cases hstd : IsStandard cond.Operator = true
    · obtain ⟨hbe, hbo⟩ := buildCondition_spec cond hstd
      constructor
      · intro hmal
        rw [malformedSql] at hmal
        rw [hstd, Bool.true_and] at hmal
        obtain ⟨e, he⟩ := hbe hmal
        exact ⟨e, by rw [buildWhereClause]; simp [hstd, he]⟩
      · intro hok
        rw [malformedSql] at hok
        rw [hstd, Bool.true_and] at hok
        obtain ⟨s, ps, hco, hs⟩ := hbo hok
        refine ⟨s, ps, by rw [buildWhereClause]; simp [hstd, hco], ?_⟩
        rw [hasFragment, hstd]
        simp [hs]
    · have hstd' : IsStandard cond.Operator = false := by simpa using hstd
      constructor
      · intro hmal
        rw [malformedSql, hstd'] at hmal
        simp at hmal
      · intro _
        refine ⟨"", [], by rw [buildWhereClause]; simp [hstd'], ?_⟩
        rw [hasFragment, hstd']
        simp
  | none, some (.mk oper cs) =>
    obtain ⟨hle, hlo⟩ := buildClauseList_spec cs
      (fun x hx => ih x (by simpa [groupChildren] using hx))
    constructor
    · intro hmal
      by_cases hml : malformedSqlList cs = true
      · obtain ⟨e, he⟩ := hle hml
        exact ⟨e, by rw [buildWhereClause, buildGroupClause, he]; rfl⟩
      · have hml' : malformedSqlList cs = false := by simpa using hml
        rw [malformedSql, hml', Bool.false_or, Bool.and_eq_true] at hmal
        obtain ⟨hcnt, hmatch⟩ := hmal
        have hcnt' : 0 < fragmentCount cs := of_decide_eq_true hcnt
        obtain ⟨rs, hrok, hlen⟩ := hlo hml'
        rw [buildWhereClause, buildGroupClause, hrok, exceptBind_ok]
        rw [if_neg (by omega :
          ¬ ((rs.map Prod.fst).filter (fun c => !(c == ""))).length = 0)]
        by_cases hnot : stringToUpper oper = "NOT"
        · rw [if_pos hnot] at hmatch
          rw [if_pos hnot]
          have hne1 : fragmentCount cs ≠ 1 := of_decide_eq_true hmatch
          rw [if_pos (by omega :
            ((rs.map Prod.fst).filter (fun c => !(c == ""))).length ≠ 1)]
          exact ⟨_, rfl⟩
        · rw [if_neg hnot] at hmatch
          rw [if_neg hnot]
          by_cases handor : stringToUpper oper = "AND" ∨ stringToUpper oper = "OR"
          · rw [if_pos handor] at hmatch
            cases hmatch
          · rw [if_neg handor]
            exact ⟨_, rfl⟩
    · intro hok
      rw [malformedSql] at hok
      have hml' : malformedSqlList cs = false := by
        cases hb : malformedSqlList cs
        · rfl
        · rw [hb] at hok; simp at hok
      rw [hml', Bool.false_or] at hok
      obtain ⟨rs, hrok, hlen⟩ := hlo hml'
      by_cases hcz : fragmentCount cs = 0
      · refine ⟨"", (rs.map Prod.snd).flatten, ?_, ?_⟩
        · rw [buildWhereClause, buildGroupClause, hrok, exceptBind_ok]
          rw [if_pos (by omega :
            ((rs.map Prod.fst).filter (fun c => !(c == ""))).length = 0)]
        · have hfr : hasFragmentList cs = false := (fragmentCount_zero_iff cs).mp hcz
          rw [hasFragment, hfr]
          simp
      · have hcnt' : 0 < fragmentCount cs := Nat.pos_of_ne_zero hcz
        have hinner :
            (if stringToUpper oper = "NOT" then decide (fragmentCount cs ≠ 1)
             else if stringToUpper oper = "AND" ∨ stringToUpper oper = "OR" then false
             else true) = false := by
          rwa [decide_eq_true hcnt', Bool.true_and] at hok
        have hfrT : hasFragment (QueryFilter.mk none (some (FilterGroup.mk oper cs))) = true := by
          rw [hasFragment]
          cases hb : hasFragmentList cs
          · exact absurd ((fragmentCount_zero_iff cs).mpr hb) hcz
          · rfl
        by_cases hnot : stringToUpper oper = "NOT"
        · rw [if_pos hnot] at hinner
          have h1 : fragmentCount cs = 1 := by
            have := of_decide_eq_false hinner
            omega
          refine ⟨"NOT (" ++ ((rs.map Prod.fst).filter (fun c => !(c == ""))).headI ++ ")",
            (rs.map Prod.snd).flatten, ?_, ?_⟩
          · rw [buildWhereClause, buildGroupClause, hrok, exceptBind_ok]
            rw [if_neg (by omega :
              ¬ ((rs.map Prod.fst).filter (fun c => !(c == ""))).length = 0)]
            rw [if_pos hnot]
            rw [if_neg (by omega :
              ¬ ((rs.map Prod.fst).filter (fun c => !(c == ""))).length ≠ 1)]
          · rw [hfrT]
            exact ⟨fun _ => rfl, fun _ => strAppend_ne_empty_left _ _
              (strAppend_ne_empty_left _ _ (by decide : ("NOT (" : String) ≠ ""))⟩
        · rw [if_neg hnot] at hinner
          by_cases handor : stringToUpper oper = "AND" ∨ stringToUpper oper = "OR"
          · refine ⟨"(" ++ String.intercalate (" " ++ stringToUpper oper ++ " ")
                ((rs.map Prod.fst).filter (fun c => !(c == ""))) ++ ")",
              (rs.map Prod.snd).flatten, ?_, ?_⟩
            · rw [buildWhereClause, buildGroupClause, hrok, exceptBind_ok]
              rw [if_neg (by omega :
                ¬ ((rs.map Prod.fst).filter (fun c => !(c == ""))).length = 0)]
              rw [if_neg hnot, if_pos handor]
            · rw [hfrT]
              exact ⟨fun _ => rfl, fun _ => strAppend_ne_empty_left _ _
                (strAppend_ne_empty_left _ _ (by decide : ("(" : String) ≠ ""))⟩
          · rw [if_neg handor] at hinner
            cases hinner
  | none, none =>
    constructor
    · intro _
      exact ⟨_, by rw [buildWhereClause]⟩
    · intro hok
      rw [malformedSql] at hok
      cases hok
/-- A request whose filter is a NOT group with an empty child list. -/
def c5EmptyNotDsl : QueryDSL :=
  { Filters := some (.mk none (some (.mk "not" []))) }

/-- Counterexample to C5 as stated: a NOT group whose child count is
zero — not "exactly one" — does not fail generation; the group produces
no fragment, is silently dropped, and the statement is returned. -/
theorem c5_counterexample :
    Generate "t" (some c5EmptyNotDsl) = .ok ("SELECT * FROM \"t\"", []) := rfl

/-- C5 (amended): for every filter structure that is malformed for SQL
generation — a node with neither Condition nor Group set, an IN or
NOT-IN condition whose value is not a non-empty list, a NOT group whose
fragment-producing children number other than one while at least one
child produces a fragment, or a group whose operator is not NOT/AND/OR
(NOR, XOR, anything else) with at least one fragment-producing child —
SQL generation returns an error and no statement. (Groups none of whose
children produce a fragment are dropped without error, which is what
the counterexample forces onto the original arity wording.) -/
theorem c5_amended_malformed_fails (f : QueryFilter) (tbl : String)
    (dsl : QueryDSL) (hf : dsl.Filters = some f)
    (hmal : malformedSql f = true) :
    ∃ e, Generate tbl (some dsl) = .error e := by
  obtain ⟨e, he⟩ := (buildWhereClause_spec f).1 hmal
  by_cases ht : tbl = ""
  · exact ⟨"table name cannot be empty", by rw [Generate]; simp [ht]⟩
  · refine ⟨"error building WHERE clause: " ++ e, ?_⟩
    obtain ⟨fl, srt, pgn, prj, jn, ag, wd, hn⟩ := dsl
    cases hf
    rw [Generate]
    simp only [ht, if_false, reduceIte]
    rw [he]
    rfl

/-- Witness for the amended C5 at a concrete malformed filter (a node
with neither Condition nor Group set). -/
theorem c5_amended_witness :
    ∃ e, Generate "users"
      (some { Filters := some (.mk none none) }) = .error e :=
  c5_amended_malformed_fails (.mk none none) "users"
    { Filters := some (.mk none none) } rfl rfl
/-! ## Claim C7: the resolved fetch field set -/

mutual
/-- The fields of the custom (non-native) conditions anywhere in a
filter tree, in tree order (the claim's enumeration of what must be
fetched for the in-process filter pass). -/
def customConditionFields : QueryFilter → List String
  | .mk (some cond) (some (.mk _ cs)) =>
    (if ¬ IsStandard cond.Operator then [cond.Field] else []) ++
      customConditionFieldsList cs
  | .mk (some cond) none =>
    if ¬ IsStandard cond.Operator then [cond.Field] else []
  | .mk none (some (.mk _ cs)) => customConditionFieldsList cs
  | .mk none none => []

/-- The custom-condition fields of a list of children. -/
def customConditionFieldsList : List QueryFilter → List String
  | [] => []
  | c :: cs => customConditionFields c ++ customConditionFieldsList cs
end

theorem mem_addField_self (acc : List String) (s : String) : s ∈ addField acc s := by
  rw [addField]
  by_cases h : acc.contains s
  · rw [if_pos h]
    exact List.mem_of_elem_eq_true h
  · rw [if_neg h]
    exact List.mem_append_right acc (List.mem_singleton.mpr rfl)

theorem mem_addField_of_mem {acc : List String} {x : String} (s : String)
    (h : x ∈ acc) : x ∈ addField acc s := by
  rw [addField]
  by_cases hc : acc.contains s
  · rwa [if_pos hc]
  · rw [if_neg hc]
    exact List.mem_append_left _ h

theorem collectList_mono_of (cs : List QueryFilter)
    (hch : ∀ c ∈ cs, ∀ acc, ∀ x ∈ acc, x ∈ collectGoFilterRequiredFields c acc) :
    ∀ acc, ∀ x ∈ acc, x ∈ collectList cs acc := by
  induction cs with
  | nil => intro acc x hx; exact hx
  | cons c rest ih =>
    intro acc x hx
    rw [collectList]
    exact ih (fun y hy => hch y (List.mem_cons_of_mem c hy)) _ _
      (hch c (List.mem_cons_self c rest) acc x hx)

theorem collect_mono :
    ∀ f : QueryFilter, ∀ acc, ∀ x ∈ acc, x ∈ collectGoFilterRequiredFields f acc := by
  apply QueryFilter.strongInduction
    (P := fun f => ∀ acc, ∀ x ∈ acc, x ∈ collectGoFilterRequiredFields f acc)
  intro c g ih acc x hx
  have haddcond : ∀ (cond : FilterCondition),
      x ∈ (if ¬ IsStandard cond.Operator then addField acc cond.Field else acc) := by
    intro cond
    by_cases hstd : IsStandard cond.Operator
    · simpa [hstd] using hx
    · simp only [hstd, not_false_eq_true, if_true, reduceIte]
      exact mem_addField_of_mem _ hx
  match c, g with
  | some cond, some (.mk oper cs) =>
    rw [collectGoFilterRequiredFields]
    exact collectList_mono_of cs
      (fun y hy => ih y (by simpa [groupChildren] using hy)) _ _ (haddcond cond)
  | some cond, none =>
    rw [collectGoFilterRequiredFields]
    exact haddcond cond
  | none, some (.mk oper cs) =>
    rw [collectGoFilterRequiredFields]
    exact collectList_mono_of cs
      (fun y hy => ih y (by simpa [groupChildren] using hy)) _ _ hx
  | none, none =>
    rw [collectGoFilterRequiredFields]
    exact hx

theorem collectList_mono (cs : List QueryFilter) :
    ∀ acc, ∀ x ∈ acc, x ∈ collectList cs acc :=
  collectList_mono_of cs (fun c _ => collect_mono c)

theorem collectList_complete_of (cs : List QueryFilter)
    (hch : ∀ c ∈ cs, ∀ acc, ∀ x ∈ customConditionFields c,
      x ∈ collectGoFilterRequiredFields c acc) :
    ∀ acc, ∀ x ∈ customConditionFieldsList cs, x ∈ collectList cs acc := by
  induction cs with
  | nil => intro acc x hx; cases hx
  | cons c rest ih =>
    intro acc x hx
    rw [customConditionFieldsList] at hx
    rw [collectList]
    rcases List.mem_append.mp hx with h1 | h2
    · exact collectList_mono rest _ _
        (hch c (List.mem_cons_self c rest) acc x h1)
    · exact ih (fun y hy => hch y (List.mem_cons_of_mem c hy)) _ _ h2

theorem collect_complete :
    ∀ f : QueryFilter, ∀ acc, ∀ x ∈ customConditionFields f,
      x ∈ collectGoFilterRequiredFields f acc := by
  apply QueryFilter.strongInduction
    (P := fun f => ∀ acc, ∀ x ∈ customConditionFields f,
      x ∈ collectGoFilterRequiredFields f acc)
  intro c g ih acc x hx
  match c, g with
  | some cond, some (.mk oper cs) =>
    rw [customConditionFields] at hx
    rw [collectGoFilterRequiredFields]
    rcases List.mem_append.mp hx with h1 | h2
    · by_cases hstd : IsStandard cond.Operator
      · rw [if_neg (by simpa using hstd)] at h1
        cases h1
      · rw [if_pos (by simpa using hstd)] at h1
        have hx1 : x = cond.Field := List.mem_singleton.mp h1
        subst hx1
        rw [if_pos (by simpa using hstd)]
        exact collectList_mono cs _ _ (mem_addField_self acc cond.Field)
    · apply collectList_complete_of cs
        (fun y hy => ih y (by simpa [groupChildren] using hy))
      exact h2
  | some cond, none =>
    rw [customConditionFields] at hx
    rw [collectGoFilterRequiredFields]
    by_cases hstd : IsStandard cond.Operator
    · rw [if_neg (by simpa using hstd)] at hx
      cases hx
    · rw [if_pos (by simpa using hstd)] at hx
      have hx1 : x = cond.Field := List.mem_singleton.mp hx
      subst hx1
      rw [if_pos (by simpa using hstd)]
      exact mem_addField_self acc cond.Field
  | none, some (.mk oper cs) =>
    rw [customConditionFields] at hx
    rw [collectGoFilterRequiredFields]
    apply collectList_complete_of cs
      (fun y hy => ih y (by simpa [groupChildren] using hy))
    exact hx
  | none, none =>
    rw [customConditionFields] at hx
    cases hx
theorem foldInclude_mono (l : List ProjectionField) :
    ∀ acc, ∀ x ∈ acc, x ∈ l.foldl
      (fun acc f => if f.Name ≠ "" then addField acc f.Name else acc) acc := by
  induction l with
  | nil => intro acc x hx; exact hx
  | cons f rest ih =>
    intro acc x hx
    rw [List.foldl_cons]
    apply ih
    by_cases h : f.Name = ""
    · simpa [h] using hx
    · simp only [h, ne_eq, not_false_eq_true, if_true, reduceIte]
      exact mem_addField_of_mem _ hx

theorem foldInclude_mem (l : List ProjectionField) :
    ∀ acc, ∀ fld ∈ l, fld.Name ≠ "" → fld.Name ∈ l.foldl
      (fun acc f => if f.Name ≠ "" then addField acc f.Name else acc) acc := by
  induction l with
  | nil => intro acc fld hf; cases hf
  | cons f rest ih =>
    intro acc fld hf hne
    rw [List.foldl_cons]
    rcases List.mem_cons.mp hf with h1 | h2
    · subst h1
      apply foldInclude_mono
      simp only [hne, ne_eq, not_false_eq_true, if_true, reduceIte]
      exact mem_addField_self acc fld.Name
    · exact ih _ fld h2 hne

theorem foldComputed_mono (l : List ProjectionComputedItem) :
    ∀ acc, ∀ x ∈ acc, x ∈ l.foldl
      (fun acc item =>
        match item.ComputedFieldExpression with
        | some cfe =>
          if cfe.Expression.Function.beq (.str "full_name_calc") then
            addField (addField acc "first_name") "last_name"
          else acc
        | none => acc) acc := by
  induction l with
  | nil => intro acc x hx; exact hx
  | cons item rest ih =>
    intro acc x hx
    rw [List.foldl_cons]
    apply ih
    cases hcfe : item.ComputedFieldExpression with
    | none => simpa [hcfe] using hx
    | some cfe =>
      by_cases hfn : cfe.Expression.Function.beq (.str "full_name_calc") = true
      · simp only [hcfe, hfn, if_true, reduceIte]
        exact mem_addField_of_mem _ (mem_addField_of_mem _ hx)
      · simpa [hcfe, hfn] using hx

theorem selectStarHead (qt w o l of : String) :
    "SELECT " ++ String.intercalate ", " ["*"] ++ " FROM " ++ qt ++ w ++ o ++ l ++ of
      = "SELECT * FROM " ++ qt ++ (w ++ o ++ l ++ of) := by
  simp only [strAppend_assoc]
  rfl

/-- C7: for every request, the resolved fetch field set contains every
(nonempty-named) field of the caller's include projection and the field
of every custom condition anywhere in the filter tree; and when the
resolved set is empty, the statement the executor asks the generator
for selects every field (SELECT *). -/
theorem c7_determineFieldsToSelect_spec (dsl : QueryDSL) :
    (∀ proj, dsl.Projection = some proj →
      ∀ fld ∈ proj.Include, fld.Name ≠ "" →
        fld.Name ∈ determineFieldsToSelect dsl) ∧
    (∀ f, dsl.Filters = some f →
      ∀ x ∈ customConditionFields f, x ∈ determineFieldsToSelect dsl) ∧
    (determineFieldsToSelect dsl = [] →
      ∀ tbl stmt ps, Generate tbl (some (executorSqlDsl dsl)) = .ok (stmt, ps) →
        ∃ rest, stmt = "SELECT * FROM " ++ quoteIdentifier tbl ++ rest) := by
  obtain ⟨fl, srt, pgn, prj, jn, ag, wd, hn⟩ := dsl
  refine ⟨?_, ?_, ?_⟩
  · intro proj hproj fld hfld hne
    cases hproj
    have hlen : proj.Include.length > 0 :=
      List.length_pos.mpr (List.ne_nil_of_mem hfld)
    have h1 := foldInclude_mem proj.Include [] fld hfld hne
    cases fl with
    | none =>
      rw [determineFieldsToSelect]
      dsimp only
      rw [if_pos hlen]
      by_cases hc : proj.Computed.length > 0
      · rw [if_pos hc]
        exact foldComputed_mono proj.Computed _ _ h1
      · rw [if_neg hc]
        exact h1
    | some f =>
      rw [determineFieldsToSelect]
      dsimp only
      rw [if_pos hlen]
      by_cases hc : proj.Computed.length > 0
      · rw [if_pos hc]
        exact foldComputed_mono proj.Computed _ _ (collect_mono f _ _ h1)
      · rw [if_neg hc]
        exact collect_mono f _ _ h1
  · intro f hf x hx
    cases hf
    cases prj with
    | none =>
      rw [determineFieldsToSelect]
      dsimp only
      exact collect_complete f _ x hx
    | some proj =>
      rw [determineFieldsToSelect]
      dsimp only
      by_cases hc : proj.Computed.length > 0
      · rw [if_pos hc]
        exact foldComputed_mono proj.Computed _ _ (collect_complete f _ x hx)
      · rw [if_neg hc]
        exact collect_complete f _ x hx
  · intro hempty tbl stmt ps hgen
    rw [executorSqlDsl, hempty] at hgen
    by_cases ht : tbl = ""
    · rw [Generate] at hgen
      simp [ht] at hgen
    · rw [Generate] at hgen
      simp only [ht, if_false, reduceIte] at hgen
      cases hfl : fl with
      | none =>
        rw [hfl] at hgen
        dsimp only at hgen
        simp only [List.map_nil, ProjectionConfiguration.Include, List.length_nil,
          gt_iff_lt, Nat.lt_irrefl, if_false, reduceIte, exceptBind_pure,
          Except.ok.injEq, Prod.mk.injEq] at hgen
        obtain ⟨hstmt, hps⟩ := hgen
        exact ⟨_, hstmt.symm.trans (selectStarHead _ _ _ _ _)⟩
      | some f =>
        rw [hfl] at hgen
        dsimp only at hgen
        cases hw : buildWhereClause f with
        | error e =>
          rw [hw] at hgen
          simp [Except.mapError, exceptBind_err, Except.bind] at hgen
        | ok r =>
          rw [hw] at hgen
          simp only [List.map_nil, ProjectionConfiguration.Include, List.length_nil,
            gt_iff_lt, Nat.lt_irrefl, if_false, reduceIte, exceptBind_pure,
            Except.mapError, exceptBind_ok, Except.ok.injEq, Prod.mk.injEq] at hgen
          obtain ⟨hstmt, hps⟩ := hgen
          exact ⟨_, hstmt.symm.trans (selectStarHead _ _ _ _ _)⟩

/-- Witness for C7 at a concrete request: an include field, a custom
condition's field, and the SELECT * default for the empty field set. -/
theorem c7_witness :
    ("age" ∈ determineFieldsToSelect
      { Projection := some (.mk [.mk "age" none] [] []) }) ∧
    ("balance" ∈ determineFieldsToSelect
      { Filters := some (.mk (some ⟨"balance", "zero_balance_check", .null⟩) none) }) ∧
    (∃ rest, "SELECT * FROM \"users\"" =
      "SELECT * FROM " ++ quoteIdentifier "users" ++ rest) := by
  refine ⟨?_, ?_, ?_⟩
  · exact (c7_determineFieldsToSelect_spec
      { Projection := some (.mk [.mk "age" none] [] []) }).1
      (.mk [.mk "age" none] [] []) rfl (.mk "age" none)
      (List.mem_singleton.mpr rfl) (by decide)
  · exact (c7_determineFieldsToSelect_spec
      { Filters := some (.mk (some ⟨"balance", "zero_balance_check", .null⟩) none) }).2.1
      (.mk (some ⟨"balance", "zero_balance_check", .null⟩) none) rfl
      "balance" (by rw [customConditionFields]; decide)
  · exact (c7_determineFieldsToSelect_spec {}).2.2
      rfl "users" "SELECT * FROM \"users\"" [] rfl
/-! ## Claim C4: values never shape the statement text -/

/-- The shape of a condition value, as far as the generated statement
text is concerned: every scalar is interchangeable with every other
scalar; a list is interchangeable with any list of the same length
(the length is the number of IN placeholders emitted). -/
def valueShape : Value → Option Nat
  | .list vs => some vs.length
  | _ => none

/-- Two conditions of the same shape: same field, same operator, values
of the same shape. -/
def sameShapeCond (c c' : FilterCondition) : Bool :=
  c.Field == c'.Field && c.Operator == c'.Operator &&
    valueShape c.Value == valueShape c'.Value

mutual
/-- Two filter trees of the same shape: identical structure and
operators, condition values allowed to differ within their shape. -/
def sameShapeFilter : QueryFilter → QueryFilter → Bool
  | .mk (some c) none, .mk (some c') none => sameShapeCond c c'
  | .mk (some c) (some g), .mk (some c') (some g') =>
    sameShapeCond c c' && sameShapeGroup g g'
  | .mk none (some g), .mk none (some g') => sameShapeGroup g g'
  | .mk none none, .mk none none => true
  | _, _ => false

/-- Same-shape groups: equal operator, pointwise same-shape children. -/
def sameShapeGroup : FilterGroup → FilterGroup → Bool
  | .mk op cs, .mk op' cs' => op == op' && sameShapeList cs cs'

/-- Pointwise same-shape lists. -/
def sameShapeList : List QueryFilter → List QueryFilter → Bool
  | [], [] => true
  | c :: cs, c' :: cs' => sameShapeFilter c c' && sameShapeList cs cs'
  | _, _ => false
end

/-- Same-shape optional filters. -/
def sameShapeFilterOpt : Option QueryFilter → Option QueryFilter → Bool
  | some f, some f' => sameShapeFilter f f'
  | none, none => true
  | _, _ => false

theorem exceptMap_eq_error {α β ε : Type} (g : α → β) (x : Except ε α) (e : ε)
    (h : x.map g = .error e) : x = .error e := by
  cases x with
  | error e2 => cases h; rfl
  | ok a => cases h

theorem buildCondition_shape (c c' : FilterCondition)
    (hstd : IsStandard c.Operator = true)
    (h : sameShapeCond c c' = true) :
    (buildCondition c).map Prod.fst = (buildCondition c').map Prod.fst := by
  obtain ⟨fld, op, v⟩ := c
  obtain ⟨fld', op', v'⟩ := c'
  rw [sameShapeCond] at h
  simp only [Bool.and_eq_true, beq_iff_eq] at h
  obtain ⟨⟨h1, h2⟩, h3⟩ := h
  cases h1
  cases h2
  have hmem : op ∈ standardComparisonOperators := by
    rw [IsStandard] at hstd
    exact List.mem_of_elem_eq_true hstd
  rw [standardComparisonOperators] at hmem
  have hlist : ∀ (fld2 kw msg : String),
      (match v with
        | Value.list vs =>
          if 0 < vs.length then
            Except.ok (quoteIdentifier fld2 ++ kw ++
              String.intercalate "," (vs.map (fun _ => "?")) ++ ")", vs)
          else Except.error msg
        | _ => Except.error msg).map Prod.fst
      = (match v' with
        | Value.list vs =>
          if 0 < vs.length then
            Except.ok (quoteIdentifier fld2 ++ kw ++
              String.intercalate "," (vs.map (fun _ => "?")) ++ ")", vs)
          else Except.error msg
        | _ => Except.error msg).map Prod.fst := by
    intro fld2 kw msg
    match v, v', h3 with
    | Value.list vs, Value.list vs', h3 =>
      dsimp only
      have hlen : vs.length = vs'.length := by
        simpa [valueShape] using h3
      by_cases hpos : 0 < vs.length
      · rw [if_pos hpos, if_pos (hlen ▸ hpos)]
        have : vs.map (fun _ => "?") = vs'.map (fun _ => "?") := by
          rw [List.map_const', List.map_const', hlen]
        rw [this]
        rfl
      · rw [if_neg hpos, if_neg (hlen ▸ hpos)]
    | Value.list vs, Value.str s, h3 => simp [valueShape] at h3
    | Value.list vs, Value.int n, h3 => simp [valueShape] at h3
    | Value.list vs, Value.bool b, h3 => simp [valueShape] at h3
    | Value.list vs, Value.null, h3 => simp [valueShape] at h3
    | Value.str s, Value.list vs, h3 => simp [valueShape] at h3
    | Value.int n, Value.list vs, h3 => simp [valueShape] at h3
    | Value.bool b, Value.list vs, h3 => simp [valueShape] at h3
    | Value.null, Value.list vs, h3 => simp [valueShape] at h3
    | Value.str s, Value.str s', _ => rfl
    | Value.str s, Value.int n, _ => rfl
    | Value.str s, Value.bool b, _ => rfl
    | Value.str s, Value.null, _ => rfl
    | Value.int n, Value.str s, _ => rfl
    | Value.int n, Value.int n', _ => rfl
    | Value.int n, Value.bool b, _ => rfl
    | Value.int n, Value.null, _ => rfl
    | Value.bool b, Value.str s, _ => rfl
    | Value.bool b, Value.int n, _ => rfl
    | Value.bool b, Value.bool b', _ => rfl
    | Value.bool b, Value.null, _ => rfl
    | Value.null, Value.str s, _ => rfl
    | Value.null, Value.int n, _ => rfl
    | Value.null, Value.bool b, _ => rfl
    | Value.null, Value.null, _ => rfl
  fin_cases hmem
  case _ => rfl
  case _ => rfl
  case _ => rfl
  case _ => rfl
  case _ => rfl
  case _ => rfl
  case _ => exact hlist fld " IN (" "IN operator requires a non-empty array value"
  case _ => exact hlist fld " NOT IN (" "NIN operator requires a non-empty array value"
  case _ => rfl
  case _ => rfl
  case _ => rfl
  case _ => rfl
  case _ => rfl
  case _ => rfl
/-- The statement-relevant part of a condition-node translation is
shape-invariant. -/
theorem whereCond_shape (cond cond' : FilterCondition)
    (hsh : sameShapeCond cond cond' = true)
    (g g' : Option FilterGroup) :
    (buildWhereClause (.mk (some cond) g)).map Prod.fst =
      (buildWhereClause (.mk (some cond') g')).map Prod.fst := by
  have hop : cond.Operator = cond'.Operator := by
    rw [sameShapeCond] at hsh
    simp only [Bool.and_eq_true, beq_iff_eq] at hsh
    exact hsh.1.2
  rw [buildWhereClause, buildWhereClause]
  by_cases hstd : IsStandard cond.Operator = true
  · rw [if_pos hstd, if_pos (by rw [← hop]; exact hstd)]
    exact buildCondition_shape cond cond' hstd hsh
  · rw [if_neg hstd, if_neg (by rw [← hop]; exact hstd)]

theorem buildClauseList_shape_of (cs : List QueryFilter)
    (hch : ∀ c ∈ cs, ∀ c', sameShapeFilter c c' = true →
      (buildWhereClause c).map Prod.fst = (buildWhereClause c').map Prod.fst) :
    ∀ cs', sameShapeList cs cs' = true →
      (buildClauseList cs).map (fun rs => rs.map Prod.fst) =
        (buildClauseList cs').map (fun rs => rs.map Prod.fst) := by
  induction cs with
  | nil =>
    intro cs' hsh
    match cs', hsh with
    | [], _ => rfl
  | cons c rest ih =>
    intro cs' hsh
    match cs', hsh with
    | c' :: rest', hsh =>
      rw [sameShapeList] at hsh
      simp only [Bool.and_eq_true] at hsh
      obtain ⟨hc, hrest⟩ := hsh
      have hcm := hch c (List.mem_cons_self c rest) c' hc
      have hrm := ih (fun x hx => hch x (List.mem_cons_of_mem c hx)) rest' hrest
      rw [buildClauseList, buildClauseList]
      cases hbc : buildWhereClause c with
      | error e =>
        rw [hbc] at hcm
        have hbc' : buildWhereClause c' = .error e :=
          exceptMap_eq_error _ _ _ hcm.symm
        rw [hbc']
        rfl
      | ok r =>
        cases hbc' : buildWhereClause c' with
        | error e =>
          rw [hbc, hbc'] at hcm
          cases hcm
        | ok r2 =>
          rw [hbc, hbc'] at hcm
          have hs : r.1 = r2.1 := by
            simpa [Except.map] using hcm
          rw [exceptBind_ok, exceptBind_ok]
          cases hbl : buildClauseList rest with
          | error e =>
            rw [hbl] at hrm
            have hbl' : buildClauseList rest' = .error e :=
              exceptMap_eq_error _ _ _ hrm.symm
            rw [hbl']
            rfl
          | ok rs =>
            cases hbl' : buildClauseList rest' with
            | error e =>
              rw [hbl, hbl'] at hrm
              cases hrm
            | ok rs' =>
              rw [hbl, hbl'] at hrm
              have hmm : rs.map Prod.fst = rs'.map Prod.fst := by
                simpa [Except.map] using hrm
              simp [Except.map, exceptBind_ok, Except.bind, List.map_cons, hs, hmm]

theorem buildWhereClause_shape :
    ∀ f f', sameShapeFilter f f' = true →
      (buildWhereClause f).map Prod.fst = (buildWhereClause f').map Prod.fst := by
  apply QueryFilter.strongInduction
    (P := fun f => ∀ f', sameShapeFilter f f' = true →
      (buildWhereClause f).map Prod.fst = (buildWhereClause f').map Prod.fst)
  intro c g ih f'
  obtain ⟨c', g'⟩ := f'
  intro hsh
  match c, g, c', g', hsh with
  | some cond, none, some cond', none, hsh =>
    rw [sameShapeFilter] at hsh
    exact whereCond_shape cond cond' hsh none none
  | some cond, some g0, some cond', some g0', hsh =>
    rw [sameShapeFilter] at hsh
    simp only [Bool.and_eq_true] at hsh
    exact whereCond_shape cond cond' hsh.1 (some g0) (some g0')
  | none, none, none, none, hsh => rfl
  | none, some (.mk oper cs), none, some (.mk oper' cs'), hsh =>
    rw [sameShapeFilter, sameShapeGroup] at hsh
    simp only [Bool.and_eq_true, beq_iff_eq] at hsh
    obtain ⟨hop, hlist⟩ := hsh
    cases hop
    have hlm := buildClauseList_shape_of cs
      (fun x hx => ih x (by simpa [groupChildren] using hx)) cs' hlist
    rw [buildWhereClause, buildWhereClause, buildGroupClause, buildGroupClause]
    cases hbl : buildClauseList cs with
    | error e =>
      rw [hbl] at hlm
      have hbl' : buildClauseList cs' = .error e :=
        exceptMap_eq_error _ _ _ hlm.symm
      rw [hbl']
    | ok rs =>
      cases hbl' : buildClauseList cs' with
      | error e =>
        rw [hbl, hbl'] at hlm
        cases hlm
      | ok rs' =>
        rw [hbl, hbl'] at hlm
        have hmm : rs.map Prod.fst = rs'.map Prod.fst := by
          simpa [Except.map] using hlm
        rw [exceptBind_ok, exceptBind_ok]
        dsimp only
        rw [hmm]
        by_cases hz : ((rs'.map Prod.fst).filter (fun c => !(c == ""))).length = 0
        · rw [if_pos hz, if_pos hz]
          rfl
        · rw [if_neg hz, if_neg hz]
          by_cases hnot : stringToUpper oper = "NOT"
          · rw [if_pos hnot, if_pos hnot]
            by_cases h1 : ((rs'.map Prod.fst).filter (fun c => !(c == ""))).length ≠ 1
            · rw [if_pos h1, if_pos h1]
            · rw [if_neg h1, if_neg h1]
              rfl
          · rw [if_neg hnot, if_neg hnot]
            by_cases handor : stringToUpper oper = "AND" ∨ stringToUpper oper = "OR"
            · rw [if_pos handor, if_pos handor]
              rfl
            · rw [if_neg handor, if_neg handor]
  | some cond, none, some cond', some g0', hsh => simp [sameShapeFilter] at hsh
  | some cond, none, none, some g0', hsh => simp [sameShapeFilter] at hsh
  | some cond, none, none, none, hsh => simp [sameShapeFilter] at hsh
  | some cond, some g0, some cond', none, hsh => simp [sameShapeFilter] at hsh
  | some cond, some g0, none, some g0', hsh => simp [sameShapeFilter] at hsh
  | some cond, some g0, none, none, hsh => simp [sameShapeFilter] at hsh
  | none, some g0, some cond', some g0', hsh => simp [sameShapeFilter] at hsh
  | none, some g0, some cond', none, hsh => simp [sameShapeFilter] at hsh
  | none, some g0, none, none, hsh => simp [sameShapeFilter] at hsh
  | none, none, some cond', some g0', hsh => simp [sameShapeFilter] at hsh
  | none, none, some cond', none, hsh => simp [sameShapeFilter] at hsh
  | none, none, none, some g0', hsh => simp [sameShapeFilter] at hsh
/-- C4: identifiers are always quoted (with embedded double quotes
doubled) and condition values never reach the statement text — they are
appended only to the positional parameter list. Hence for a fixed
request shape (same structure, operators, fields, sort, pagination,
projection, and IN-list lengths) the generated statement string — and
in the failure case the error — is identical for any two choices of
condition values; a value, however malicious, cannot alter the
statement's structure. -/
theorem c4_generate_statement_value_independent (tbl : String)
    (dsl dsl' : QueryDSL)
    (hs : dsl.«Sort» = dsl'.«Sort») (hp : dsl.Pagination = dsl'.Pagination)
    (hpr : dsl.Projection = dsl'.Projection)
    (hf : sameShapeFilterOpt dsl.Filters dsl'.Filters = true) :
    (Generate tbl (some dsl)).map Prod.fst =
      (Generate tbl (some dsl')).map Prod.fst := by
  obtain ⟨fl, srt, pgn, prj, jn, ag, wd, hn⟩ := dsl
  obtain ⟨fl', srt', pgn', prj', jn', ag', wd', hn'⟩ := dsl'
  dsimp only at hs hp hpr hf
  cases hs
  cases hp
  cases hpr
  by_cases ht : tbl = ""
  · rw [Generate, Generate]
    simp [ht]
  · rw [Generate, Generate]
    simp only [ht, if_false, reduceIte]
    match fl, fl', hf with
    | none, none, _ => rfl
    | some f, some f', hf =>
      have hm := buildWhereClause_shape f f'
        (by simpa [sameShapeFilterOpt] using hf)
      dsimp only
      cases hb : buildWhereClause f with
      | error e =>
        rw [hb] at hm
        have hb' : buildWhereClause f' = .error e :=
          exceptMap_eq_error _ _ _ hm.symm
        rw [hb']
      | ok r =>
        cases hb' : buildWhereClause f' with
        | error e =>
          rw [hb, hb'] at hm
          cases hm
        | ok r2 =>
          rw [hb, hb'] at hm
          have hs1 : r.1 = r2.1 := by
            simpa [Except.map] using hm
          simp [Except.mapError, exceptBind_ok, exceptBind_pure,
            Except.map, Except.bind, hs1]
    | some f, none, hf => simp [sameShapeFilterOpt] at hf
    | none, some f', hf => simp [sameShapeFilterOpt] at hf

/-- A request filtering on age equal to an integer. -/
def c4DslA : QueryDSL := { Filters := some (.mk (some ⟨"age", "eq", .int 1⟩) none) }

/-- The same request with a hostile string as the condition value. -/
def c4DslB : QueryDSL :=
  { Filters := some (.mk (some ⟨"age", "eq", .str "x); DROP TABLE users; --"⟩) none) }

/-- Witness for C4: the integer request and the hostile-string request
produce the same statement text; the value sits only in the parameter
list. -/
theorem c4_witness :
    (Generate "users" (some c4DslA)).map Prod.fst =
      (Generate "users" (some c4DslB)).map Prod.fst ∧
    Generate "users" (some c4DslB) =
      .ok ("SELECT * FROM \"users\" WHERE \"age\" = ?",
           [.str "x); DROP TABLE users; --"]) :=
  ⟨c4_generate_statement_value_independent "users" c4DslA c4DslB rfl rfl rfl rfl,
   rfl⟩
/-! ## Claim C9: idempotence of the final projection

Go rows are maps, so two rows are "the same" when they agree as maps:
`Row.equivMap` compares lookups at every key, and `Row.wf` (one entry
per key) is the invariant every Go map satisfies. -/

theorem find_cons (p : String × Value) (r : Row) (k : String) :
    Row.find (p :: r) k = if p.1 = k then some p.2 else Row.find r k := by
  rw [Row.find, List.find?]
  by_cases h : p.1 = k
  · simp [h]
  · simp only [h, decide_False, if_neg h]
    rfl

theorem find_mapReplace_self (r : Row) (k : String) (v : Value) :
    Row.find (r.map (fun p => if p.1 = k then (p.1, v) else p)) k =
      if r.any (fun p => p.1 = k) then some v else none := by
  induction r with
  | nil => rfl
  | cons p rest ih =>
    rw [List.map_cons]
    by_cases hp : p.1 = k
    · rw [if_pos hp]
      rw [find_cons]
      simp [hp]
    · rw [if_neg hp]
      rw [find_cons, if_neg (by simpa using hp)]
      rw [ih]
      rw [List.any_cons]
      have hd : decide (p.1 = k) = false := decide_eq_false hp
      rw [hd, Bool.false_or]

theorem find_mapReplace_other (r : Row) (k : String) (v : Value) (k2 : String)
    (hne : k2 ≠ k) :
    Row.find (r.map (fun p => if p.1 = k then (p.1, v) else p)) k2 = Row.find r k2 := by
  induction r with
  | nil => rfl
  | cons p rest ih =>
    rw [List.map_cons]
    by_cases hp : p.1 = k
    · rw [if_pos hp]
      rw [find_cons, find_cons]
      have : ¬ p.1 = k2 := by
        rw [hp]
        exact fun hc => hne hc.symm
      rw [if_neg this, if_neg this]
      exact ih
    · rw [if_neg hp]
      rw [find_cons, find_cons]
      by_cases hp2 : p.1 = k2
      · rw [if_pos hp2, if_pos hp2]
      · rw [if_neg hp2, if_neg hp2]
        exact ih

theorem find_append_single (r : Row) (k : String) (v : Value) (k2 : String) :
    Row.find (r ++ [(k, v)]) k2 =
      match Row.find r k2 with
      | some w => some w
      | none => if k2 = k then some v else none := by
  induction r with
  | nil =>
    rw [List.nil_append]
    show Row.find [(k, v)] k2 = _
    rw [find_cons]
    by_cases h : k = k2
    · subst h
      simp [Row.find]
    · rw [if_neg h]
      have h2 : ¬ k2 = k := fun hc => h hc.symm
      show (none : Option Value) = if k2 = k then some v else none
      rw [if_neg h2]
  | cons p rest ih =>
    rw [List.cons_append, find_cons, find_cons]
    by_cases hp : p.1 = k2
    · rw [if_pos hp, if_pos hp]
    · rw [if_neg hp, if_neg hp]
      exact ih

theorem find_none_of_not_any (r : Row) (k : String)
    (h : ¬ (List.any r (fun p => p.1 = k)) = true) :
    Row.find r k = none := by
  induction r with
  | nil => rfl
  | cons p rest ih =>
    rw [find_cons]
    rw [List.any_cons] at h
    by_cases hp : p.1 = k
    · exact absurd (by simp [hp]) h
    · rw [if_neg hp]
      exact ih (fun hc => h (by simp [hc]))

theorem find_insert (r : Row) (k : String) (v : Value) (k2 : String) :
    Row.find (Row.insert r k v) k2 = if k2 = k then some v else Row.find r k2 := by
  rw [Row.insert]
  by_cases hmem : (List.any r (fun p => p.1 = k)) = true
  · rw [if_pos hmem]
    by_cases h2 : k2 = k
    · subst h2
      rw [find_mapReplace_self, if_pos hmem, if_pos rfl]
    · rw [find_mapReplace_other r k v k2 h2, if_neg h2]
  · rw [if_neg hmem]
    rw [find_append_single]
    by_cases h2 : k2 = k
    · subst h2
      rw [find_none_of_not_any r k2 hmem]
    · cases hf : Row.find r k2 with
      | some w => simp [h2]
      | none => simp [h2]

theorem wf_insert (r : Row) (k : String) (v : Value) (h : Row.wf r) :
    Row.wf (Row.insert r k v) := by
  rw [Row.insert]
  by_cases hmem : (List.any r (fun p => p.1 = k)) = true
  · rw [if_pos hmem]
    rw [Row.wf] at h ⊢
    have hkeys : List.map Prod.fst
        (List.map (fun p => if p.1 = k then (p.1, v) else p) r) =
        List.map Prod.fst r := by
      rw [List.map_map]
      apply List.map_congr_left
      intro p _
      by_cases hp : p.1 = k <;> simp [hp]
    rw [hkeys]
    exact h
  · rw [if_neg hmem]
    rw [Row.wf] at h ⊢
    rw [List.map_append]
    rw [List.nodup_append]
    refine ⟨h, List.nodup_singleton k, ?_⟩
    intro a ha hb
    have hak : a = k := by simpa using hb
    subst hak
    obtain ⟨p, hp, hp1⟩ := List.mem_map.mp ha
    apply hmem
    rw [List.any_eq_true]
    exact ⟨p, hp, by simpa using hp1⟩

theorem find_insertFrom (src : Row) (ks : List String) (base : Row) (k : String) :
    Row.find (insertFrom src ks base) k =
      if k ∈ ks ∧ (Row.find src k).isSome = true then Row.find src k
      else Row.find base k := by
  induction ks generalizing base with
  | nil =>
    rw [insertFrom]
    rw [if_neg (by simp)]
  | cons k0 ks ih =>
    rw [insertFrom]
    cases hf : Row.find src k0 with
    | some v =>
      rw [ih]
      by_cases hc : k ∈ ks ∧ (Row.find src k).isSome = true
      · rw [if_pos hc, if_pos ⟨List.mem_cons_of_mem k0 hc.1, hc.2⟩]
      · rw [if_neg hc, find_insert]
        by_cases hkk : k = k0
        · subst hkk
          rw [if_pos rfl]
          rw [if_pos ⟨List.mem_cons_self k ks, by rw [hf]; rfl⟩, hf]
        · rw [if_neg hkk]
          rw [if_neg (fun hcon => hc
            ⟨(List.mem_cons.mp hcon.1).resolve_left hkk, hcon.2⟩)]
    | none =>
      rw [ih]
      by_cases hc : k ∈ ks ∧ (Row.find src k).isSome = true
      · rw [if_pos hc, if_pos ⟨List.mem_cons_of_mem k0 hc.1, hc.2⟩]
      · rw [if_neg hc]
        rw [if_neg (fun hcon => ?_)]
        rcases List.mem_cons.mp hcon.1 with h1 | h1
        · subst h1
          rw [hf] at hcon
          cases hcon.2
        · exact hc ⟨h1, hcon.2⟩

theorem wf_insertFrom (src : Row) (ks : List String) (base : Row)
    (h : Row.wf base) : Row.wf (insertFrom src ks base) := by
  induction ks generalizing base with
  | nil => exact h
  | cons k0 ks ih =>
    rw [insertFrom]
    cases hf : Row.find src k0 with
    | some v => exact ih _ (wf_insert base k0 v h)
    | none => exact ih _ h

theorem find_copyExcept (ex : List String) (src : Row) (base : Row) (k : String)
    (hsrc : Row.wf src) :
    Row.find (copyExcept ex src base) k =
      if ¬ (ex.contains k) = true ∧ (Row.find src k).isSome = true then Row.find src k
      else Row.find base k := by
  induction src generalizing base with
  | nil =>
    rw [copyExcept]
    rw [if_neg (by simp [Row.find, List.find?])]
  | cons p rest ih =>
    have hwrest : Row.wf rest := by
      rw [Row.wf, List.map_cons] at hsrc
      exact (List.nodup_cons.mp hsrc).2
    have hknotin : p.1 ∉ List.map Prod.fst rest := by
      rw [Row.wf, List.map_cons] at hsrc
      exact (List.nodup_cons.mp hsrc).1
    have hfrest : Row.find rest p.1 = none := by
      cases hfr : Row.find rest p.1 with
      | none => rfl
      | some w =>
        exfalso
        rw [Row.find] at hfr
        cases hfind : List.find? (fun q => q.1 = p.1) rest with
        | none => rw [hfind] at hfr; cases hfr
        | some q =>
          have hq1 : q.1 = p.1 := by simpa using List.find?_some hfind
          exact hknotin (List.mem_map.mpr
            ⟨q, List.mem_of_find?_eq_some hfind, hq1⟩)
    rw [copyExcept]
    by_cases hex : (ex.contains p.1) = true
    · rw [if_pos hex, ih _ hwrest]
      rw [find_cons]
      by_cases hpk : p.1 = k
      · subst hpk
        rw [if_neg (fun hcon => hcon.1 hex)]
        rw [if_neg (fun hcon => hcon.1 hex)]
      · rw [if_neg hpk]
    · rw [if_neg hex, ih _ hwrest]
      by_cases hpk : p.1 = k
      · subst hpk
        rw [hfrest]
        rw [if_neg (by simp)]
        rw [find_insert, if_pos rfl, find_cons, if_pos rfl]
        rw [if_pos ⟨hex, rfl⟩]
      · rw [find_cons, if_neg hpk, find_insert]
        by_cases hC : ¬(ex.contains k) = true ∧ (Row.find rest k).isSome = true
        · rw [if_pos hC, if_pos hC]
        · rw [if_neg hC, if_neg hC, if_neg (fun hcon : k = p.1 => hpk hcon.symm)]

theorem wf_copyExcept (ex : List String) (src : Row) (base : Row)
    (h : Row.wf base) : Row.wf (copyExcept ex src base) := by
  induction src generalizing base with
  | nil => exact h
  | cons p rest ih =>
    rw [copyExcept]
    by_cases hex : (ex.contains p.1) = true
    · rw [if_pos hex]
      exact ih _ h
    · rw [if_neg hex]
      exact ih _ (wf_insert base p.1 p.2 h)

theorem find_copy (src : Row) (base : Row) (k : String) (hsrc : Row.wf src) :
    Row.find (Row.copy base src) k =
      if (Row.find src k).isSome = true then Row.find src k
      else Row.find base k := by
  induction src generalizing base with
  | nil =>
    rw [Row.copy]
    rw [if_neg (by simp [Row.find, List.find?])]
  | cons p rest ih =>
    have hwrest : Row.wf rest := by
      rw [Row.wf, List.map_cons] at hsrc
      exact (List.nodup_cons.mp hsrc).2
    have hknotin : p.1 ∉ List.map Prod.fst rest := by
      rw [Row.wf, List.map_cons] at hsrc
      exact (List.nodup_cons.mp hsrc).1
    have hfrest : Row.find rest p.1 = none := by
      cases hfr : Row.find rest p.1 with
      | none => rfl
      | some w =>
        exfalso
        rw [Row.find] at hfr
        cases hfind : List.find? (fun q => q.1 = p.1) rest with
        | none => rw [hfind] at hfr; cases hfr
        | some q =>
          have hq1 : q.1 = p.1 := by simpa using List.find?_some hfind
          exact hknotin (List.mem_map.mpr
            ⟨q, List.mem_of_find?_eq_some hfind, hq1⟩)
    rw [Row.copy, ih _ hwrest]
    by_cases hpk : p.1 = k
    · subst hpk
      rw [hfrest]
      rw [if_neg (by simp)]
      rw [find_insert, if_pos rfl, find_cons, if_pos rfl]
      simp
    · rw [find_cons, if_neg hpk, find_insert]
      by_cases hC : (Row.find rest k).isSome = true
      · rw [if_pos hC, if_pos hC]
      · rw [if_neg hC, if_neg hC, if_neg (fun hcon : k = p.1 => hpk hcon.symm)]

theorem wf_copy (src : Row) (base : Row) (h : Row.wf base) :
    Row.wf (Row.copy base src) := by
  induction src generalizing base with
  | nil => exact h
  | cons p rest ih =>
    rw [Row.copy]
    exact ih _ (wf_insert base p.1 p.2 h)

theorem wf_nil : Row.wf ([] : Row) := List.nodup_nil
theorem find_nil (k : String) : Row.find ([] : Row) k = none := rfl

theorem optionIte_isSome (y : Option Value) :
    (if y.isSome = true then y else none) = y := by
  cases y <;> simp

/-- What the final projection leaves at key k, as a function of what the
source row holds there: computed aliases and included fields survive
when present, excluded fields are dropped, everything passes through
when neither include nor exclude is given. -/
def projFindF (p : ProjectionConfiguration) (k : String) (y : Option Value) :
    Option Value :=
  if k ∈ computedAliases p.Computed ∧ y.isSome = true then y
  else if 0 < p.Include.length then
    (if k ∈ p.Include.map ProjectionField.Name ∧ y.isSome = true then y else none)
  else if 0 < p.Exclude.length then
    (if ¬((p.Exclude.map ProjectionField.Name).contains k) = true ∧ y.isSome = true
     then y else none)
  else y

theorem projFindF_none (p : ProjectionConfiguration) (k : String) :
    projFindF p k none = none := by
  rw [projFindF]
  simp

theorem projFindF_cases (p : ProjectionConfiguration) (k : String) (y : Option Value) :
    projFindF p k y = y ∨ projFindF p k y = none := by
  rw [projFindF]
  split_ifs <;> simp

theorem projFindF_idem (p : ProjectionConfiguration) (k : String) (y : Option Value) :
    projFindF p k (projFindF p k y) = projFindF p k y := by
  rcases projFindF_cases p k y with h | h
  · rw [h]
    exact h
  · rw [h]
    exact projFindF_none p k

theorem find_projectRow (p : ProjectionConfiguration) (r : Row) (k : String)
    (hr : Row.wf r) :
    Row.find (projectRow p r) k = projFindF p k (Row.find r k) := by
  rw [projectRow, projFindF]
  have hbase : Row.find
      (if 0 < p.Include.length then
        insertFrom r (p.Include.map ProjectionField.Name) []
      else if 0 < p.Exclude.length then
        copyExcept (p.Exclude.map ProjectionField.Name) r []
      else Row.copy [] r) k =
      (if 0 < p.Include.length then
        (if k ∈ p.Include.map ProjectionField.Name ∧ (Row.find r k).isSome = true
         then Row.find r k else none)
      else if 0 < p.Exclude.length then
        (if ¬((p.Exclude.map ProjectionField.Name).contains k) = true ∧
            (Row.find r k).isSome = true then Row.find r k else none)
      else Row.find r k) := by
    by_cases hi : 0 < p.Include.length
    · rw [if_pos hi, if_pos hi, find_insertFrom, find_nil]
    · rw [if_neg hi, if_neg hi]
      by_cases he : 0 < p.Exclude.length
      · rw [if_pos he, if_pos he, find_copyExcept _ _ _ _ hr, find_nil]
      · rw [if_neg he, if_neg he, find_copy _ _ _ hr, find_nil, optionIte_isSome]
  by_cases hcg : 0 < p.Computed.length
  · rw [if_pos hcg, find_insertFrom, hbase]
  · rw [if_neg hcg]
    have hlen0 : p.Computed.length = 0 := by omega
    have hcnil : p.Computed = [] := List.length_eq_zero.mp hlen0
    have haliases : computedAliases p.Computed = [] := by
      rw [hcnil]
      rfl
    rw [haliases]
    rw [if_neg (show ¬(k ∈ ([] : List String) ∧ (Row.find r k).isSome = true) by simp)]
    exact hbase

theorem wf_projectRow (p : ProjectionConfiguration) (r : Row) :
    Row.wf (projectRow p r) := by
  rw [projectRow]
  have hbase : Row.wf
      (if 0 < p.Include.length then
        insertFrom r (p.Include.map ProjectionField.Name) []
      else if 0 < p.Exclude.length then
        copyExcept (p.Exclude.map ProjectionField.Name) r []
      else Row.copy [] r) := by
    by_cases hi : 0 < p.Include.length
    · rw [if_pos hi]
      exact wf_insertFrom _ _ _ wf_nil
    · rw [if_neg hi]
      by_cases he : 0 < p.Exclude.length
      · rw [if_pos he]
        exact wf_copyExcept _ _ _ wf_nil
      · rw [if_neg he]
        exact wf_copy _ _ wf_nil
  by_cases hcg : 0 < p.Computed.length
  · rw [if_pos hcg]
    exact wf_insertFrom _ _ _ hbase
  · rw [if_neg hcg]
    exact hbase

theorem projectRow_idem (p : ProjectionConfiguration) (r : Row) (hr : Row.wf r) :
    Row.equivMap (projectRow p (projectRow p r)) (projectRow p r) := by
  intro k
  rw [find_projectRow p (projectRow p r) k (wf_projectRow p r),
    find_projectRow p r k hr, projFindF_idem]

theorem forall₂_equivMap_self (l : List Row) : List.Forall₂ Row.equivMap l l :=
  List.forall₂_same.mpr (fun _ _ => fun _ => rfl)

/-- C9: applying the final projection twice with the same configuration
yields the same row set (the same maps, row for row) as applying it
once, for every list of well-formed rows (a Go map never holds two
entries for one key, which is what `Row.wf` states). -/
theorem c9_applyFinalProjection_idempotent (rows : List Row)
    (projection : Option ProjectionConfiguration)
    (hwf : ∀ r ∈ rows, Row.wf r) :
    List.Forall₂ Row.equivMap
      (applyFinalProjection (applyFinalProjection rows projection) projection)
      (applyFinalProjection rows projection) := by
  match projection with
  | none => exact forall₂_equivMap_self rows
  | some p =>
    by_cases hempty :
        (p.Include.length = 0 && p.Exclude.length = 0 && p.Computed.length = 0) = true
    · rw [applyFinalProjection, if_pos hempty]
      exact forall₂_equivMap_self _
    · rw [applyFinalProjection, if_neg hempty, applyFinalProjection, if_neg hempty]
      have key : ∀ l : List Row, (∀ r ∈ l, Row.wf r) →
          List.Forall₂ Row.equivMap
            ((l.map (projectRow p)).map (projectRow p)) (l.map (projectRow p)) := by
        intro l
        induction l with
        | nil => intro _; constructor
        | cons r rest ih =>
          intro hl
          simp only [List.map_cons]
          exact List.Forall₂.cons
            (projectRow_idem p r (hl r (List.mem_cons_self r rest)))
            (ih (fun x hx => hl x (List.mem_cons_of_mem r hx)))
      exact key rows hwf

/-- Witness for C9 at a concrete row list and projection. -/
theorem c9_witness :
    (∀ r ∈ [[("age", Value.int 25), ("name", Value.str "Alice")]], Row.wf r) ∧
    List.Forall₂ Row.equivMap
      (applyFinalProjection
        (applyFinalProjection [[("age", Value.int 25), ("name", Value.str "Alice")]]
          (some (.mk [.mk "age" none] [] [])))
        (some (.mk [.mk "age" none] [] [])))
      (applyFinalProjection [[("age", Value.int 25), ("name", Value.str "Alice")]]
        (some (.mk [.mk "age" none] [] []))) :=
  ⟨by
    intro r hr
    rw [List.mem_singleton] at hr
    subst hr
    rw [Row.wf]
    decide,
   c9_applyFinalProjection_idempotent
    [[("age", Value.int 25), ("name", Value.str "Alice")]]
    (some (.mk [.mk "age" none] [] []))
    (by
      intro r hr
      rw [List.mem_singleton] at hr
      subst hr
      rw [Row.wf]
      decide)⟩
end Querydsl
